import Mathlib

/-!
# USI I2C master driver (usi_i2c.c / usi_i2c.h)

A shallow embedding of the interrupt-driven I2C master state machine and of
its public entry points, followed by theorems about runs of the handler.

Modelling conventions
* The C statics and the device registers the driver touches are the fields of
  `State`.  Pointers are addresses (natural numbers) into two memories: the
  caller's command words (`seqmem`) and the caller's receive bytes (`rxmem`).
* `r |= m` is `r ||| m`, `r &= ~m` is `bic r m`; both are exact on any width.
* The bit masks of the device header `msp430g2412.h`, which is not part of the
  repository, are the fields of the parameter `Header`.
* One completion event is `event`: the serial engine leaves new contents in its
  registers (`BusInput`), then the handler `USI_TXRX` runs once.
-/

namespace UsiI2c

/-! ## Constants and types of usi_i2c.h -/

/-- Command tag of a repeated start, `1<<8`. -/
def I2C_RESTART : Nat := 1 <<< 8

/-- Command tag of a one-byte read, `2<<8`. -/
def I2C_READ : Nat := 2 <<< 8

/-- The protocol states of `enum i2c_state_enum`. -/
inductive i2c_state_type where
  | I2C_IDLE
  | I2C_START
  | I2C_PREPARE_ACKNACK
  | I2C_HANDLE_RXTX
  | I2C_RECEIVED_DATA
  | I2C_PREPARE_STOP
  | I2C_STOP
  deriving DecidableEq, Repr

open i2c_state_type

/-- The numeric value the enum gives each state. -/
def i2c_state_type.code : i2c_state_type → Nat
  | I2C_IDLE => 0
  | I2C_START => 2
  | I2C_PREPARE_ACKNACK => 4
  | I2C_HANDLE_RXTX => 6
  | I2C_RECEIVED_DATA => 8
  | I2C_PREPARE_STOP => 10
  | I2C_STOP => 12

/-- Bit masks that usi_i2c.c takes from the device header `msp430g2412.h`.
The header is not part of the repository, so the masks are parameters. -/
structure Header where
  USIPE7 : Nat
  USIPE6 : Nat
  USIMST : Nat
  USIGE : Nat
  USIOE : Nat
  USISWRST : Nat
  USII2C : Nat
  USIIE : Nat
  USIIFG : Nat
  USICKPL : Nat
  USIIFGCC : Nat
  BIT0 : Nat
  GIE : Nat

/-- The masks as the device data sheet gives them; used to evaluate the model
on concrete runs. -/
def msp430g2412 : Header where
  USIPE7 := 0x80
  USIPE6 := 0x40
  USIMST := 0x08
  USIGE := 0x04
  USIOE := 0x02
  USISWRST := 0x01
  USII2C := 0x40
  USIIE := 0x10
  USIIFG := 0x01
  USICKPL := 0x02
  USIIFGCC := 0x20
  BIT0 := 0x01
  GIE := 0x08

/-- The driver's statics (usi_i2c.c lines 30-34), the device registers it
uses, the status register `SR`, and the two caller-owned memories. -/
structure State where
  i2c_sequence : Nat
  i2c_sequence_length : Nat
  i2c_receive_buffer : Nat
  i2c_wakeup_sr_bits : Nat
  i2c_state : i2c_state_type
  USICTL0 : Nat
  USICTL1 : Nat
  USICKCTL : Nat
  USICNT : Nat
  USISRL : Nat
  SR : Nat
  seqmem : Nat → Nat
  rxmem : Nat → Nat

/-- C's `r &= ~m`: clear in `r` the bits that are set in `m`. -/
def bic (r m : Nat) : Nat := r ^^^ (r &&& m)

/-- C's `*p = v` on a memory. -/
def store (mem : Nat → Nat) (p v : Nat) : Nat → Nat :=
  fun a => if a = p then v else mem a

/-! ## usi_i2c.c -/

/-- One evaluation of the wait loop of `i2c_send_sequence` (line 40) followed,
when the loop is left, by lines 41-46.  The flag tells whether the function
returned; while the state is not Idle the loop body is empty and nothing is
written. -/
def i2c_send_sequence_pass (d : Header) (sequence sequence_length received_data
    wakeup_sr_bits : Nat) (s : State) : State × Bool :=
  if s.i2c_state ≠ I2C_IDLE then (s, false)
  else
    let s := { s with i2c_sequence := sequence }
    let s := { s with i2c_sequence_length := sequence_length }
    let s := { s with i2c_receive_buffer := received_data }
    let s := { s with i2c_wakeup_sr_bits := wakeup_sr_bits }
    let s := { s with i2c_state := I2C_START }
    let s := { s with USICTL1 := s.USICTL1 ||| d.USIIFG }
    (s, true)

/-- Lines 49-54. -/
def i2c_prepare_stop (d : Header) (s : State) : State :=
  let s := { s with USICTL0 := s.USICTL0 ||| d.USIOE }
  let s := { s with USISRL := 0x00 }
  let s := { s with USICNT := s.USICNT ||| 0x01 }
  { s with i2c_state := I2C_STOP }

/-- Lines 56-80, the "advance" step. -/
def i2c_prepare_data_xmit_recv (d : Header) (s : State) : State :=
  if s.i2c_sequence_length = 0 then
    i2c_prepare_stop d s
  else
    let s :=
      if s.seqmem s.i2c_sequence = I2C_RESTART then
        let s := { s with USICTL0 := s.USICTL0 ||| d.USIOE }
        let s := { s with USISRL := 0xff }
        let s := { s with USICNT := (s.USICNT &&& 0xE0) ||| 1 }
        { s with i2c_state := I2C_START }
      else if s.seqmem s.i2c_sequence = I2C_READ then
        let s := { s with USICTL0 := bic s.USICTL0 d.USIOE }
        let s := { s with USICNT := (s.USICNT &&& 0xE0) ||| 8 }
        { s with i2c_state := I2C_RECEIVED_DATA }
      else
        let s := { s with USICTL0 := s.USICTL0 ||| d.USIOE }
        let s := { s with USISRL := s.seqmem s.i2c_sequence % 256 }
        let s := { s with USICNT := (s.USICNT &&& 0xE0) ||| 8 }
        { s with i2c_state := I2C_PREPARE_ACKNACK }
    let s := { s with i2c_sequence := s.i2c_sequence + 1 }
    { s with i2c_sequence_length := (s.i2c_sequence_length + 65535) % 65536 }

/-- Modelled from the spec: the compiler intrinsic `_bic_SR_register_on_exit`,
which clears the bits of the mask in the status register the interrupted code
resumes with. -/
def bic_SR_register_on_exit (mask : Nat) (s : State) : State :=
  { s with SR := bic s.SR mask }

/-- Lines 82-140, the interrupt handler. -/
def USI_TXRX (d : Header) (s : State) : State :=
  let s :=
    match s.i2c_state with
    | I2C_IDLE => s
    | I2C_START =>
      let s := { s with USISRL := 0x00 }
      let s := { s with USICTL0 := s.USICTL0 ||| (d.USIGE ||| d.USIOE) }
      let s := { s with USICTL0 := bic s.USICTL0 d.USIGE }
      i2c_prepare_data_xmit_recv d s
    | I2C_PREPARE_ACKNACK =>
      let s := { s with USICTL0 := bic s.USICTL0 d.USIOE }
      let s := { s with USICNT := s.USICNT ||| 0x01 }
      { s with i2c_state := I2C_HANDLE_RXTX }
    | I2C_HANDLE_RXTX =>
      if s.USISRL &&& d.BIT0 ≠ 0 then
        i2c_prepare_stop d s
      else
        i2c_prepare_data_xmit_recv d s
    | I2C_RECEIVED_DATA =>
      let s := { s with rxmem := store s.rxmem s.i2c_receive_buffer s.USISRL }
      let s := { s with i2c_receive_buffer := s.i2c_receive_buffer + 1 }
      let s := { s with USICTL0 := s.USICTL0 ||| d.USIOE }
      let s :=
        if s.i2c_sequence_length > 0 then
          let s := { s with USISRL := 0x00 }
          { s with i2c_state := I2C_HANDLE_RXTX }
        else
          let s := { s with USISRL := 0xff }
          { s with i2c_state := I2C_PREPARE_STOP }
      { s with USICNT := s.USICNT ||| 0x01 }
    | I2C_PREPARE_STOP =>
      i2c_prepare_stop d s
    | I2C_STOP =>
      let s := { s with USISRL := 0x0FF }
      let s := { s with USICTL0 := s.USICTL0 ||| d.USIGE }
      let s := { s with USICTL0 := bic s.USICTL0 (d.USIGE + d.USIOE) }
      let s := { s with i2c_state := I2C_IDLE }
      if s.i2c_wakeup_sr_bits ≠ 0 then
        bic_SR_register_on_exit s.i2c_wakeup_sr_bits s
      else s
  { s with USICTL1 := bic s.USICTL1 d.USIIFG }

/-- Lines 142-151.  `_disable_interrupts` and `_enable_interrupts` clear and
set the interrupt-enable bit `GIE` of the status register. -/
def i2c_init (d : Header) (usi_clock_divider usi_clock_source : Nat) (s : State) : State :=
  let s := { s with SR := bic s.SR d.GIE }
  let s := { s with USICTL0 := (d.USIPE6 + d.USIPE7 + d.USIMST + d.USISWRST) % 256 }
  let s := { s with USICTL1 := (d.USII2C + d.USIIE) % 256 }
  let s := { s with USICKCTL := (usi_clock_divider + usi_clock_source + d.USICKPL) % 256 }
  let s := { s with USICNT := s.USICNT ||| d.USIIFGCC }
  let s := { s with USICTL0 := bic s.USICTL0 d.USISWRST }
  let s := { s with USICTL1 := bic s.USICTL1 d.USIIFG }
  { s with SR := s.SR ||| d.GIE }

/-- Lines 59-62 of usi_i2c.h. -/
def i2c_done (s : State) : Nat :=
  if s.i2c_state = I2C_IDLE then 1 else 0

/-! ## Completion events and runs -/

/-- What the serial engine leaves in its registers when its bit counter
expires: the byte shifted in from the bus, the counter register and the
flag register.  All three are 8-bit registers. -/
structure BusInput where
  USISRL : Nat
  USICNT : Nat
  USICTL1 : Nat

/-- The engine updates its registers; no static of the driver and no memory
changes. -/
def completion (e : BusInput) (s : State) : State :=
  { s with USISRL := e.USISRL % 256, USICNT := e.USICNT % 256, USICTL1 := e.USICTL1 % 256 }

/-- One completion event: the engine's update, then one run of the handler. -/
def event (d : Header) (e : BusInput) (s : State) : State :=
  USI_TXRX d (completion e s)

/-- The state after the handler has served the events of `evs` in order. -/
def run (d : Header) : List BusInput → State → State
  | [], s => s
  | e :: es, s => run d es (event d e s)

/-- The blocking call `i2c_send_sequence` (lines 39-47): the wait loop is
evaluated between completion events, which are the only thing that can change
the protocol state while the caller spins.  The result is the state at return
and the events not yet served, or `none` when the events run out with the
caller still in the loop. -/
def i2c_send_sequence (d : Header) (sequence sequence_length received_data
    wakeup_sr_bits : Nat) : List BusInput → State → Option (State × List BusInput)
  | evs, s =>
    match i2c_send_sequence_pass d sequence sequence_length received_data wakeup_sr_bits s with
    | (s1, true) => some (s1, evs)
    | (_, false) =>
      match evs with
      | [] => none
      | e :: es =>
        i2c_send_sequence d sequence sequence_length received_data wakeup_sr_bits es (event d e s)

/-- The state in which `i2c_send_sequence` returns when it is called in state
`s` and finds the driver idle at once. -/
def started (d : Header) (sequence sequence_length received_data wakeup_sr_bits : Nat)
    (s : State) : State :=
  (i2c_send_sequence_pass d sequence sequence_length received_data wakeup_sr_bits s).1

/-! ## Vocabulary of the statements -/

/-- The command words `cmds` lie in memory from address `p` on. -/
def holds (mem : Nat → Nat) : Nat → List Nat → Prop
  | _, [] => True
  | p, c :: cs => mem p = c ∧ holds mem (p + 1) cs

instance holds.decidable (mem : Nat → Nat) :
    (p : Nat) → (cmds : List Nat) → Decidable (holds mem p cmds)
  | _, [] => isTrue trivial
  | p, _ :: cs =>
    have := holds.decidable mem (p + 1) cs
    inferInstanceAs (Decidable (_ ∧ _))

/-- Number of Restart commands: words the advance step matches with `I2C_RESTART`. -/
def nRestart (cmds : List Nat) : Nat := cmds.count I2C_RESTART

/-- Number of Read commands: words the advance step matches with `I2C_READ`. -/
def nRead (cmds : List Nat) : Nat := cmds.count I2C_READ

/-- Number of Write commands: words that reach the last branch of the advance step. -/
def nWrite (cmds : List Nat) : Nat :=
  cmds.countP (fun w => w != I2C_RESTART && w != I2C_READ)

/-- No event entered in state HandleRxTx finds the NACK bit set, that is, the
handler's test `(USISRL & BIT0) != 0` fails at each of them. -/
def NoNack (d : Header) : List BusInput → State → Prop
  | [], _ => True
  | e :: es, s =>
    (s.i2c_state = I2C_HANDLE_RXTX → (e.USISRL % 256) &&& d.BIT0 = 0) ∧ NoNack d es (event d e s)

instance NoNack.decidable (d : Header) :
    (evs : List BusInput) → (s : State) → Decidable (NoNack d evs s)
  | [], _ => isTrue trivial
  | e :: es, s =>
    have := NoNack.decidable d es (event d e s)
    inferInstanceAs (Decidable (_ ∧ _))

/-- Number of events after which the protocol state is Idle for the first time,
if that happens within `evs`. -/
def firstIdle (d : Header) : List BusInput → State → Option Nat
  | [], s => if s.i2c_state = I2C_IDLE then some 0 else none
  | e :: es, s =>
    if s.i2c_state = I2C_IDLE then some 0 else (firstIdle d es (event d e s)).map (· + 1)

/-- The event calls the advance step `i2c_prepare_data_xmit_recv`. -/
def advances (d : Header) (e : BusInput) (s : State) : Prop :=
  s.i2c_state = I2C_START ∨ (s.i2c_state = I2C_HANDLE_RXTX ∧ (e.USISRL % 256) &&& d.BIT0 = 0)

instance advances.decidable (d : Header) (e : BusInput) (s : State) :
    Decidable (advances d e s) :=
  inferInstanceAs (Decidable (_ ∨ _))

/-- The next event calls the advance step, or finishes STOP framing with no
command left. -/
def Ready (s : State) : Prop :=
  s.i2c_state = I2C_START ∨ s.i2c_state = I2C_HANDLE_RXTX ∨
    (s.i2c_state = I2C_PREPARE_STOP ∧ s.i2c_sequence_length = 0)

/-- Events a run without NACK takes to reach Idle. -/
def eventsNoNack (cmds : List Nat) : Nat :=
  1 + 2 * nWrite cmds + 2 * nRead cmds + nRestart cmds + 1

/-- The shift-register bytes present at the events entered in state
ReceivedData, in the order of the events. -/
def receivedBytes (d : Header) : List BusInput → State → List Nat
  | [], _ => []
  | e :: es, s =>
    if s.i2c_state = I2C_RECEIVED_DATA then (e.USISRL % 256) :: receivedBytes d es (event d e s)
    else receivedBytes d es (event d e s)

/-- The bytes a run without NACK receives, read off the command words: `evs`
starts at the event that consumes the first word.  A Restart takes that one
event; a Write or a Read takes two, and for a Read the second one is the
ReceivedData event, whose shift-register byte is the byte received. -/
def bytesByCommand : List Nat → List BusInput → List Nat
  | [], _ => []
  | c :: cs, evs =>
    if c = I2C_RESTART then bytesByCommand cs (evs.drop 1)
    else if c = I2C_READ then
      match evs with
      | _ :: e :: rest => (e.USISRL % 256) :: bytesByCommand cs rest
      | _ => []
    else bytesByCommand cs (evs.drop 2)

/-- An upper bound on the number of events a state needs to reach Idle,
whatever the bus delivers: every remaining command costs at most two events. -/
def eventsBound (s : State) : Nat :=
  match s.i2c_state with
  | I2C_IDLE => 0
  | I2C_STOP => 1
  | I2C_PREPARE_STOP => 2
  | I2C_START => 2 + 2 * s.i2c_sequence_length
  | I2C_HANDLE_RXTX => 2 + 2 * s.i2c_sequence_length
  | I2C_PREPARE_ACKNACK => 3 + 2 * s.i2c_sequence_length
  | I2C_RECEIVED_DATA => 3 + 2 * s.i2c_sequence_length

/-- Invariant of a transaction on the command words `cmds` at address
`sequence` with receive buffer at `received_data`: `c` commands are consumed,
the rest is still to come, and the receive cursor counts the Reads among the
consumed commands, less the one whose byte is still to be stored. -/
def CursorInv (cmds : List Nat) (sequence received_data : Nat) (t : State) : Prop :=
  ∃ c, t.i2c_sequence = sequence + c ∧ c + t.i2c_sequence_length = cmds.length ∧
    t.i2c_receive_buffer + (if t.i2c_state = I2C_RECEIVED_DATA then 1 else 0)
      = received_data + nRead (cmds.take c)

/-- The handler, entered in `s`, takes a branch that sets the bit count with
`USICNT |= 0x01`: PrepareAckNack, ReceivedData, and `i2c_prepare_stop`, which
is called in PrepareStop, on a NACK in HandleRxTx, and by the advance step when
no command is left. -/
def setsCountByOr (d : Header) (s : State) : Prop :=
  s.i2c_state = I2C_PREPARE_ACKNACK ∨ s.i2c_state = I2C_RECEIVED_DATA ∨
  s.i2c_state = I2C_PREPARE_STOP ∨
  (s.i2c_state = I2C_HANDLE_RXTX ∧ s.USISRL &&& d.BIT0 ≠ 0) ∨
  ((s.i2c_state = I2C_START ∨ s.i2c_state = I2C_HANDLE_RXTX) ∧ s.i2c_sequence_length = 0)

/-- The handler, entered in `s`, calls the advance step with a command left:
the branches that set the bit count with `USICNT = (USICNT & 0xE0) | n`. -/
def setsCountByField (d : Header) (s : State) : Prop :=
  (s.i2c_state = I2C_START ∨ (s.i2c_state = I2C_HANDLE_RXTX ∧ s.USISRL &&& d.BIT0 = 0)) ∧
    s.i2c_sequence_length ≠ 0

/-- The bit positions of the USI control masks that `i2c_init` combines, as
the device data sheet assigns them: in USICTL0 the port enables USIPE7 and
USIPE6, the master select USIMST and the software reset USISWRST; in USICTL1
the I2C mode USII2C, the counter interrupt enable USIIE and the counter
interrupt flag USIIFG. -/
def usiLayout (d : Header) : Prop :=
  d.USIPE7 = 0x80 ∧ d.USIPE6 = 0x40 ∧ d.USIMST = 0x08 ∧ d.USISWRST = 0x01 ∧
  d.USII2C = 0x40 ∧ d.USIIE = 0x10 ∧ d.USIIFG = 0x01

/-- The address of the command word an event reads, if it reads one.  The
handler evaluates `*i2c_sequence` only in the advance step and there only
after the test `i2c_sequence_length == 0` has failed (lines 57-73); the
pointer is incremented afterwards (line 77). -/
def wordRead (d : Header) (e : BusInput) (s : State) : Option Nat :=
  if advances d e s ∧ s.i2c_sequence_length ≠ 0 then some s.i2c_sequence else none

/-! ## Concrete inputs -/

/-- An idle driver: the engine's registers zero, the status register 0xD8 (the
low-power bits SCG1, SCG0, CPUOFF and GIE set), the command memory holding
`words` from address 0, the receive memory filled with 0x55. -/
def idleWith (words : List Nat) : State where
  i2c_sequence := 0
  i2c_sequence_length := 0
  i2c_receive_buffer := 0
  i2c_wakeup_sr_bits := 0
  i2c_state := I2C_IDLE
  USICTL0 := 0
  USICTL1 := 0
  USICKCTL := 0
  USICNT := 0
  USISRL := 0
  SR := 0xD8
  seqmem := fun a => words.getD a 0
  rxmem := fun _ => 0x55

/-- The engine's registers when byte `b` has been shifted in: counter expired,
completion flag raised. -/
def shifted (b : Nat) : BusInput := ⟨b, 0, 1⟩

/-- Scenario A of the spec: three writes. -/
def scenarioA : List Nat := [0xA0, 0x10, 0xFF]

/-- Bus inputs of scenario A: eight events, every bit acknowledged. -/
def scenarioA_events : List BusInput :=
  [shifted 0, shifted 0, shifted 0, shifted 0, shifted 0, shifted 0, shifted 0, shifted 0]

/-- Scenario C of the spec: the engine's registers when the address byte has
been refused (bit 0 of the shift register set). -/
def nacked : BusInput := ⟨0x01, 0, 1⟩

/-- Scenario C of the spec: the driver at the HandleRxTx event that sees the
NACK of the address 0xA0. -/
def scenarioC_nack : State :=
  completion nacked (run msp430g2412 [shifted 0, shifted 0]
    (started msp430g2412 0 1 200 0 (idleWith [0xA0])))

/-- A driver in the middle of scenario A, after three events. -/
def busyState : State :=
  run msp430g2412 [shifted 0, shifted 0, shifted 0]
    (started msp430g2412 0 3 200 0 (idleWith scenarioA))

/-- Bus inputs that refuse every byte and deliver 0xFF on every read. -/
def allNacked : List BusInput :=
  [nacked, ⟨0xFF, 0, 1⟩, nacked, ⟨0xFF, 0, 1⟩, nacked, ⟨0xFF, 0, 1⟩, nacked, ⟨0xFF, 0, 1⟩,
   nacked, ⟨0xFF, 0, 1⟩]

/-- Two reads with a refused write between them. -/
def readWriteRead : List Nat := [I2C_READ, 0x33, I2C_READ]

/-- Bus inputs for `readWriteRead`: the read delivers 0x42, the write is refused. -/
def readWriteRead_events : List BusInput :=
  [shifted 0, shifted 0x42, shifted 0, shifted 0, nacked, shifted 0]

/-- The driver of `readWriteRead` at the ReceivedData event of the first Read:
0x42 is in the shift register, and the next command is a Write. -/
def receivedFirst : State :=
  completion (shifted 0x42)
    (run msp430g2412 [shifted 0] (started msp430g2412 0 3 200 0 (idleWith readWriteRead)))

/-- A driver about to advance over the command word 0x1234, whose upper byte
is neither tag: state Start, one command left. -/
def oddWord : State :=
  started msp430g2412 0 1 200 0 (idleWith [0x1234])

/-- The driver `busyState` (state PrepareAckNack) at its next completion
event: the byte is out, the counter has expired. -/
def busyEntered : State :=
  completion (shifted 0) busyState

/-- Scenario B of the spec: write, restart, write, read. -/
def scenarioB : List Nat := [0xA1, I2C_RESTART, 0xA0, I2C_READ]

/-- Bus inputs of scenario B: everything acknowledged, the read delivers 0x42
at the seventh event. -/
def scenarioB_events : List BusInput :=
  [shifted 0, shifted 0, shifted 0, shifted 0, shifted 0, shifted 0, shifted 0x42,
   shifted 0, shifted 0]

/-! ## One event, field by field -/

theorem event_seqmem (d : Header) (e : BusInput) (s : State) :
    (event d e s).seqmem = s.seqmem := by
  unfold event USI_TXRX completion
  rcases s with ⟨p, n, rb, wk, st, c0, c1, ck, cnt, srl, sr, sm, rm⟩
  cases st <;>
    simp [i2c_prepare_data_xmit_recv, i2c_prepare_stop, bic_SR_register_on_exit] <;>
    split_ifs <;> simp

theorem event_wakeup (d : Header) (e : BusInput) (s : State) :
    (event d e s).i2c_wakeup_sr_bits = s.i2c_wakeup_sr_bits := by
  unfold event USI_TXRX completion
  rcases s with ⟨p, n, rb, wk, st, c0, c1, ck, cnt, srl, sr, sm, rm⟩
  cases st <;>
    simp [i2c_prepare_data_xmit_recv, i2c_prepare_stop, bic_SR_register_on_exit] <;>
    split_ifs <;> simp

theorem event_sequence (d : Header) (e : BusInput) (s : State) :
    (event d e s).i2c_sequence =
      if advances d e s ∧ s.i2c_sequence_length ≠ 0 then s.i2c_sequence + 1 else s.i2c_sequence := by
  unfold event USI_TXRX completion advances
  rcases s with ⟨p, n, rb, wk, st, c0, c1, ck, cnt, srl, sr, sm, rm⟩
  cases st <;>
    simp [i2c_prepare_data_xmit_recv, i2c_prepare_stop, bic_SR_register_on_exit] <;>
    split_ifs <;> simp_all

theorem event_length (d : Header) (e : BusInput) (s : State) :
    (event d e s).i2c_sequence_length =
      if advances d e s ∧ s.i2c_sequence_length ≠ 0 then (s.i2c_sequence_length + 65535) % 65536
      else s.i2c_sequence_length := by
  unfold event USI_TXRX completion advances
  rcases s with ⟨p, n, rb, wk, st, c0, c1, ck, cnt, srl, sr, sm, rm⟩
  cases st <;>
    simp [i2c_prepare_data_xmit_recv, i2c_prepare_stop, bic_SR_register_on_exit] <;>
    split_ifs <;> simp_all

theorem event_receive_buffer (d : Header) (e : BusInput) (s : State) :
    (event d e s).i2c_receive_buffer =
      if s.i2c_state = I2C_RECEIVED_DATA then s.i2c_receive_buffer + 1 else s.i2c_receive_buffer := by
  unfold event USI_TXRX completion
  rcases s with ⟨p, n, rb, wk, st, c0, c1, ck, cnt, srl, sr, sm, rm⟩
  cases st <;>
    simp [i2c_prepare_data_xmit_recv, i2c_prepare_stop, bic_SR_register_on_exit] <;>
    split_ifs <;> simp_all

theorem event_rxmem (d : Header) (e : BusInput) (s : State) :
    (event d e s).rxmem =
      if s.i2c_state = I2C_RECEIVED_DATA then store s.rxmem s.i2c_receive_buffer (e.USISRL % 256)
      else s.rxmem := by
  unfold event USI_TXRX completion
  rcases s with ⟨p, n, rb, wk, st, c0, c1, ck, cnt, srl, sr, sm, rm⟩
  cases st <;>
    simp [i2c_prepare_data_xmit_recv, i2c_prepare_stop, bic_SR_register_on_exit] <;>
    split_ifs <;> simp_all

theorem event_SR (d : Header) (e : BusInput) (s : State) :
    (event d e s).SR =
      if s.i2c_state = I2C_STOP ∧ s.i2c_wakeup_sr_bits ≠ 0 then bic s.SR s.i2c_wakeup_sr_bits
      else s.SR := by
  unfold event USI_TXRX completion
  rcases s with ⟨p, n, rb, wk, st, c0, c1, ck, cnt, srl, sr, sm, rm⟩
  cases st <;>
    simp [i2c_prepare_data_xmit_recv, i2c_prepare_stop, bic_SR_register_on_exit] <;>
    split_ifs <;> simp_all

theorem event_state (d : Header) (e : BusInput) (s : State) :
    (event d e s).i2c_state =
      match s.i2c_state with
      | I2C_IDLE => I2C_IDLE
      | I2C_START | I2C_HANDLE_RXTX =>
        if ¬ advances d e s then I2C_STOP
        else if s.i2c_sequence_length = 0 then I2C_STOP
        else if s.seqmem s.i2c_sequence = I2C_RESTART then I2C_START
        else if s.seqmem s.i2c_sequence = I2C_READ then I2C_RECEIVED_DATA
        else I2C_PREPARE_ACKNACK
      | I2C_PREPARE_ACKNACK => I2C_HANDLE_RXTX
      | I2C_RECEIVED_DATA =>
        if s.i2c_sequence_length > 0 then I2C_HANDLE_RXTX else I2C_PREPARE_STOP
      | I2C_PREPARE_STOP => I2C_STOP
      | I2C_STOP => I2C_IDLE := by
  unfold event USI_TXRX completion advances
  rcases s with ⟨p, n, rb, wk, st, c0, c1, ck, cnt, srl, sr, sm, rm⟩
  cases st <;>
    simp [i2c_prepare_data_xmit_recv, i2c_prepare_stop, bic_SR_register_on_exit] <;>
    split_ifs <;> simp_all

theorem run_append (d : Header) (xs ys : List BusInput) (s : State) :
    run d (xs ++ ys) s = run d ys (run d xs s) := by
  induction xs generalizing s with
  | nil => rfl
  | cons e es ih => simp [run, ih]

theorem firstIdle_spec (d : Header) (evs : List BusInput) (s : State) (n : Nat)
    (h : firstIdle d evs s = some n) :
    n ≤ evs.length ∧ (run d (evs.take n) s).i2c_state = I2C_IDLE ∧
      ∀ j, j < n → (run d (evs.take j) s).i2c_state ≠ I2C_IDLE := by
  induction evs generalizing s n with
  | nil =>
    simp only [firstIdle] at h
    split_ifs at h with hs
    · cases h; simp [run, hs]
  | cons e es ih =>
    simp only [firstIdle] at h
    split_ifs at h with hs
    · cases h; simp [run, hs]
    · cases hf : firstIdle d es (event d e s) with
      | none => simp [hf] at h
      | some m =>
        simp [hf] at h
        subst h
        obtain ⟨h1, h2, h3⟩ := ih _ _ hf
        refine ⟨by simpa using h1, by simpa [run] using h2, ?_⟩
        intro j hj
        cases j with
        | zero => simpa [run] using hs
        | succ j => simpa [run] using h3 j (by omega)

theorem tag_ne : ¬ I2C_READ = I2C_RESTART := by decide

theorem count_restart (cs : List Nat) :
    nWrite (I2C_RESTART :: cs) = nWrite cs ∧ nRead (I2C_RESTART :: cs) = nRead cs ∧
      nRestart (I2C_RESTART :: cs) = nRestart cs + 1 := by
  have h := tag_ne
  simp [nWrite, nRead, nRestart, List.count_cons, List.countP_cons, h]

theorem count_read (cs : List Nat) :
    nWrite (I2C_READ :: cs) = nWrite cs ∧ nRead (I2C_READ :: cs) = nRead cs + 1 ∧
      nRestart (I2C_READ :: cs) = nRestart cs := by
  have h := tag_ne
  have h' : ¬ I2C_RESTART = I2C_READ := fun x => h x.symm
  simp [nWrite, nRead, nRestart, List.count_cons, List.countP_cons, h, h']

theorem count_write (c : Nat) (cs : List Nat) (h1 : c ≠ I2C_RESTART) (h2 : c ≠ I2C_READ) :
    nWrite (c :: cs) = nWrite cs + 1 ∧ nRead (c :: cs) = nRead cs ∧
      nRestart (c :: cs) = nRestart cs := by
  have h1' : ¬ I2C_RESTART = c := fun x => h1 x.symm
  have h2' : ¬ I2C_READ = c := fun x => h2 x.symm
  simp [nWrite, nRead, nRestart, List.count_cons, List.countP_cons, h1, h2, h1', h2']

theorem Ready.not_idle {s : State} (h : Ready s) : s.i2c_state ≠ I2C_IDLE := by
  rcases h with h | h | ⟨h, _⟩ <;> simp [h]

theorem Ready.not_received {s : State} (h : Ready s) : s.i2c_state ≠ I2C_RECEIVED_DATA := by
  rcases h with h | h | ⟨h, _⟩ <;> simp [h]

/-- With nothing left, a ready state performs STOP framing. -/
theorem ready_nil (d : Header) (e : BusInput) (s : State) (hr : Ready s)
    (hl : s.i2c_sequence_length = 0)
    (hn : s.i2c_state = I2C_HANDLE_RXTX → (e.USISRL % 256) &&& d.BIT0 = 0) :
    (event d e s).i2c_state = I2C_STOP := by
  rw [event_state]
  rcases hr with h | h | ⟨h, _⟩ <;> simp_all [advances]

/-- A ready state consumes a Restart in one event and is ready again. -/
theorem ready_restart (d : Header) (e : BusInput) (s : State) (n : Nat) (hr : Ready s)
    (hl : s.i2c_sequence_length = n + 1) (hlt : n + 1 < 65536)
    (hc : s.seqmem s.i2c_sequence = I2C_RESTART)
    (hn : s.i2c_state = I2C_HANDLE_RXTX → (e.USISRL % 256) &&& d.BIT0 = 0) :
    (event d e s).i2c_state = I2C_START ∧ (event d e s).i2c_sequence = s.i2c_sequence + 1 ∧
      (event d e s).i2c_sequence_length = n := by
  have hl0 : s.i2c_sequence_length ≠ 0 := by omega
  have hst : s.i2c_state = I2C_START ∨ s.i2c_state = I2C_HANDLE_RXTX := by
    rcases hr with h | h | ⟨_, h⟩
    · exact Or.inl h
    · exact Or.inr h
    · exact absurd h hl0
  have hadv : advances d e s := by
    rcases hst with h | h
    · exact Or.inl h
    · exact Or.inr ⟨h, hn h⟩
  refine ⟨?_, ?_, ?_⟩
  · rw [event_state]
    rcases hst with h | h <;> simp [h, hadv, hl0, hc]
  · rw [event_sequence]; simp [hadv, hl0]
  · rw [event_length]; simp [hadv, hl0]; omega

/-- A ready state consumes a Read or a Write in two events and is ready again. -/
theorem ready_data (d : Header) (e1 e2 : BusInput) (s : State) (n : Nat) (hr : Ready s)
    (hl : s.i2c_sequence_length = n + 1) (hlt : n + 1 < 65536)
    (hc : s.seqmem s.i2c_sequence ≠ I2C_RESTART)
    (hn : s.i2c_state = I2C_HANDLE_RXTX → (e1.USISRL % 256) &&& d.BIT0 = 0) :
    ((s.seqmem s.i2c_sequence = I2C_READ ∧ (event d e1 s).i2c_state = I2C_RECEIVED_DATA) ∨
      (s.seqmem s.i2c_sequence ≠ I2C_READ ∧ (event d e1 s).i2c_state = I2C_PREPARE_ACKNACK)) ∧
    Ready (event d e2 (event d e1 s)) ∧
    (event d e2 (event d e1 s)).i2c_sequence = s.i2c_sequence + 1 ∧
    (event d e2 (event d e1 s)).i2c_sequence_length = n := by
  have hl0 : s.i2c_sequence_length ≠ 0 := by omega
  have hst : s.i2c_state = I2C_START ∨ s.i2c_state = I2C_HANDLE_RXTX := by
    rcases hr with h | h | ⟨_, h⟩
    · exact Or.inl h
    · exact Or.inr h
    · exact absurd h hl0
  have hadv : advances d e1 s := by
    rcases hst with h | h
    · exact Or.inl h
    · exact Or.inr ⟨h, hn h⟩
  have hq : (event d e1 s).i2c_sequence = s.i2c_sequence + 1 := by
    rw [event_sequence]; simp [hadv, hl0]
  have hlen1 : (event d e1 s).i2c_sequence_length = n := by
    rw [event_length]; simp [hadv, hl0]; omega
  have hs1 : (s.seqmem s.i2c_sequence = I2C_READ ∧ (event d e1 s).i2c_state = I2C_RECEIVED_DATA) ∨
      (s.seqmem s.i2c_sequence ≠ I2C_READ ∧ (event d e1 s).i2c_state = I2C_PREPARE_ACKNACK) := by
    rw [event_state]
    by_cases hD : s.seqmem s.i2c_sequence = I2C_READ
    · left; rcases hst with h | h <;> simp [h, hadv, hl0, hD, tag_ne]
    · right; rcases hst with h | h <;> simp [h, hadv, hl0, hc, hD]
  have hnadv : ¬ advances d e2 (event d e1 s) := by
    rcases hs1 with ⟨_, h⟩ | ⟨_, h⟩ <;> simp [advances, h]
  have hl2 : (event d e2 (event d e1 s)).i2c_sequence_length = n := by
    rw [event_length]; simp [hnadv, hlen1]
  refine ⟨hs1, ?_, ?_, hl2⟩
  · have hst2 := event_state d e2 (event d e1 s)
    unfold Ready
    rcases hs1 with ⟨_, h⟩ | ⟨_, h⟩
    · simp only [h, hlen1] at hst2
      by_cases hz : n = 0
      · right; right
        exact ⟨by simpa [hz] using hst2, by rw [hl2, hz]⟩
      · right; left
        have : n > 0 := by omega
        simpa [this] using hst2
    · simp only [h] at hst2
      exact Or.inr (Or.inl hst2)
  · rw [event_sequence, hq]; simp [hnadv]

theorem firstIdle_ready (d : Header) (cs : List Nat) :
    ∀ (evs : List BusInput) (s : State), Ready s → holds s.seqmem s.i2c_sequence cs →
      s.i2c_sequence_length = cs.length → cs.length < 65536 → NoNack d evs s →
      eventsNoNack cs ≤ evs.length → firstIdle d evs s = some (eventsNoNack cs) := by
  induction cs with
  | nil =>
    intro evs s hr _ hl _ hn hlen
    simp [eventsNoNack, nWrite, nRead, nRestart] at hlen ⊢
    match evs, hlen, hn with
    | e1 :: e2 :: rest, _, hn =>
      obtain ⟨hn1, hn2⟩ := hn
      have hs1 := ready_nil d e1 s hr hl hn1
      have hs2 : (event d e2 (event d e1 s)).i2c_state = I2C_IDLE := by
        rw [event_state, hs1]
      cases rest <;> simp [firstIdle, hr.not_idle, hs1, hs2]
  | cons c cs ih =>
    intro evs s hr hm hl hlt hn hlen
    obtain ⟨hc, hm⟩ := hm
    simp only [List.length_cons] at hl hlt
    by_cases hR : c = I2C_RESTART
    · subst hR
      obtain ⟨c1, c2, c3⟩ := count_restart cs
      have hE : eventsNoNack (I2C_RESTART :: cs) = eventsNoNack cs + 1 := by
        simp only [eventsNoNack, c1, c2, c3]; omega
      rw [hE] at hlen ⊢
      match evs, hlen, hn with
      | e1 :: rest, hlen, hn =>
        obtain ⟨hn1, hn2⟩ := hn
        obtain ⟨hs1, hq, hl1⟩ := ready_restart d e1 s cs.length hr hl hlt hc hn1
        have := ih rest (event d e1 s) (Or.inl hs1)
          (by rw [event_seqmem, hq]; exact hm) hl1 (by omega) hn2 (by simpa using hlen)
        simp [firstIdle, hr.not_idle, this]
    · have hE : eventsNoNack (c :: cs) = eventsNoNack cs + 2 := by
        by_cases hD : c = I2C_READ
        · subst hD
          obtain ⟨c1, c2, c3⟩ := count_read cs
          simp only [eventsNoNack, c1, c2, c3]; omega
        · obtain ⟨c1, c2, c3⟩ := count_write c cs hR hD
          simp only [eventsNoNack, c1, c2, c3]; omega
      rw [hE] at hlen ⊢
      match evs, hlen, hn with
      | e1 :: e2 :: rest, hlen, hn =>
        obtain ⟨hn1, _, hn3⟩ := hn
        obtain ⟨hs1, hr2, hq, hl2⟩ :=
          ready_data d e1 e2 s cs.length hr hl hlt (by rw [hc]; exact hR) hn1
        have hs1n : (event d e1 s).i2c_state ≠ I2C_IDLE := by
          rcases hs1 with ⟨_, h⟩ | ⟨_, h⟩ <;> simp [h]
        have := ih rest (event d e2 (event d e1 s)) hr2
          (by rw [event_seqmem, event_seqmem, hq]; exact hm) hl2 (by omega) hn3
          (by simpa using hlen)
        simp [firstIdle, hr.not_idle, hs1n, this]

/-- The receive side of a no-NACK run from a ready state. -/
theorem received_ready (d : Header) (cs : List Nat) :
    ∀ (evs : List BusInput) (s : State), Ready s → holds s.seqmem s.i2c_sequence cs →
      s.i2c_sequence_length = cs.length → cs.length < 65536 → NoNack d evs s →
      evs.length = eventsNoNack cs →
      (receivedBytes d evs s).length = nRead cs ∧
      (run d evs s).i2c_receive_buffer = s.i2c_receive_buffer + nRead cs ∧
      ∀ a, (run d evs s).rxmem a =
        if s.i2c_receive_buffer ≤ a ∧ a < s.i2c_receive_buffer + nRead cs then
          (receivedBytes d evs s).getD (a - s.i2c_receive_buffer) 0
        else s.rxmem a := by
  induction cs with
  | nil =>
    intro evs s hr _ hl _ hn hlen
    simp [eventsNoNack, nWrite, nRead, nRestart] at hlen ⊢
    match evs, hlen, hn with
    | [e1, e2], _, hn =>
      obtain ⟨hn1, hn2⟩ := hn
      have hs1 := ready_nil d e1 s hr hl hn1
      refine ⟨?_, ?_, fun a => ?_⟩
      · simp [receivedBytes, hr.not_received, hs1]
      · simp [run, hr.not_received, hs1, event_receive_buffer]
      · have : ¬ (s.i2c_receive_buffer ≤ a ∧ a < s.i2c_receive_buffer) := by omega
        simp [run, hr.not_received, hs1, event_rxmem, this]
  | cons c cs ih =>
    intro evs s hr hm hl hlt hn hlen
    obtain ⟨hc, hm⟩ := hm
    simp only [List.length_cons] at hl hlt
    by_cases hR : c = I2C_RESTART
    · subst hR
      obtain ⟨c1, c2, c3⟩ := count_restart cs
      have hE : eventsNoNack (I2C_RESTART :: cs) = eventsNoNack cs + 1 := by
        simp only [eventsNoNack, c1, c2, c3]; omega
      rw [hE] at hlen
      match evs, hlen, hn with
      | e1 :: rest, hlen, hn =>
        obtain ⟨hn1, hn2⟩ := hn
        obtain ⟨hs1, hq, hl1⟩ := ready_restart d e1 s cs.length hr hl hlt hc hn1
        obtain ⟨i1, i2, i3⟩ := ih rest (event d e1 s) (Or.inl hs1)
          (by rw [event_seqmem, hq]; exact hm) hl1 (by omega) hn2 (by simpa using hlen)
        have hb : (event d e1 s).i2c_receive_buffer = s.i2c_receive_buffer := by
          rw [event_receive_buffer]; simp [hr.not_received]
        have hx : (event d e1 s).rxmem = s.rxmem := by
          rw [event_rxmem]; simp [hr.not_received]
        rw [hb] at i2 i3
        rw [hx] at i3
        simp only [receivedBytes, run, hr.not_received, if_false, c2]
        exact ⟨i1, i2, i3⟩
    · have hcR : s.seqmem s.i2c_sequence ≠ I2C_RESTART := by rw [hc]; exact hR
      have hE : eventsNoNack (c :: cs) = eventsNoNack cs + 2 := by
        by_cases hD : c = I2C_READ
        · subst hD
          obtain ⟨c1, c2, c3⟩ := count_read cs
          simp only [eventsNoNack, c1, c2, c3]; omega
        · obtain ⟨c1, c2, c3⟩ := count_write c cs hR hD
          simp only [eventsNoNack, c1, c2, c3]; omega
      rw [hE] at hlen
      match evs, hlen, hn with
      | e1 :: e2 :: rest, hlen, hn =>
        obtain ⟨hn1, _, hn3⟩ := hn
        obtain ⟨hs1, hr2, hq, hl2⟩ := ready_data d e1 e2 s cs.length hr hl hlt hcR hn1
        obtain ⟨i1, i2, i3⟩ := ih rest (event d e2 (event d e1 s)) hr2
          (by rw [event_seqmem, event_seqmem, hq]; exact hm) hl2 (by omega) hn3
          (by simpa using hlen)
        have hb1 : (event d e1 s).i2c_receive_buffer = s.i2c_receive_buffer := by
          rw [event_receive_buffer]; simp [hr.not_received]
        have hx1 : (event d e1 s).rxmem = s.rxmem := by
          rw [event_rxmem]; simp [hr.not_received]
        rw [event_receive_buffer, hb1] at i2 i3
        rw [event_rxmem, hx1, hb1] at i3
        rcases hs1 with ⟨hD, h⟩ | ⟨hD, h⟩
        · rw [hc] at hD
          subst hD
          obtain ⟨_, c2, _⟩ := count_read cs
          simp only [h, if_true] at i2 i3
          simp only [receivedBytes, run, hr.not_received, h, if_false, if_true, c2,
            List.length_cons, i1, true_and]
          refine ⟨by omega, fun a => ?_⟩
          rw [i3 a]
          by_cases ha : a = s.i2c_receive_buffer
          · subst ha
            simp [store]
          · by_cases hin : s.i2c_receive_buffer + 1 ≤ a ∧ a < s.i2c_receive_buffer + 1 + nRead cs
            · have hin2 : s.i2c_receive_buffer ≤ a ∧ a < s.i2c_receive_buffer + (nRead cs + 1) := by
                omega
              have hsub : a - s.i2c_receive_buffer = (a - (s.i2c_receive_buffer + 1)) + 1 := by
                omega
              simp only [hin, hin2, and_self, if_true]
              rw [hsub, List.getD_cons_succ]
            · have hin2 : ¬ (s.i2c_receive_buffer ≤ a ∧ a < s.i2c_receive_buffer + (nRead cs + 1)) := by
                omega
              simp [hin, hin2, store, ha]
        · rw [hc] at hD
          obtain ⟨_, c2, _⟩ := count_write c cs hR hD
          simp only [h, if_false] at i2 i3
          simp only [receivedBytes, run, hr.not_received, h, if_false, c2]
          exact ⟨i1, i2, by simpa using i3⟩


/-! ## Runs without NACK -/


/-- The bytes stored in a run without NACK are those of the Reads, in command order. -/
theorem receivedBytes_by_command (d : Header) (cs : List Nat) :
    ∀ (evs : List BusInput) (s : State), Ready s → holds s.seqmem s.i2c_sequence cs →
      s.i2c_sequence_length = cs.length → cs.length < 65536 → NoNack d evs s →
      evs.length = eventsNoNack cs →
      receivedBytes d evs s = bytesByCommand cs evs := by
  induction cs with
  | nil =>
    intro evs s hr _ hl _ hn hlen
    simp [eventsNoNack, nWrite, nRead, nRestart] at hlen
    match evs, hlen, hn with
    | [e1, e2], _, hn =>
      have hs1 := ready_nil d e1 s hr hl hn.1
      simp [receivedBytes, bytesByCommand, hr.not_received, hs1]
  | cons c cs ih =>
    intro evs s hr hm hl hlt hn hlen
    obtain ⟨hc, hm⟩ := hm
    simp only [List.length_cons] at hl hlt
    by_cases hR : c = I2C_RESTART
    · subst hR
      obtain ⟨c1, c2, c3⟩ := count_restart cs
      have hE : eventsNoNack (I2C_RESTART :: cs) = eventsNoNack cs + 1 := by
        simp only [eventsNoNack, c1, c2, c3]; omega
      rw [hE] at hlen
      match evs, hlen, hn with
      | e1 :: rest, hlen, hn =>
        obtain ⟨hn1, hn2⟩ := hn
        obtain ⟨hs1, hq, hl1⟩ := ready_restart d e1 s cs.length hr hl hlt hc hn1
        have := ih rest (event d e1 s) (Or.inl hs1)
          (by rw [event_seqmem, hq]; exact hm) hl1 (by omega) hn2 (by simpa using hlen)
        simp [receivedBytes, bytesByCommand, hr.not_received, this]
    · have hcR : s.seqmem s.i2c_sequence ≠ I2C_RESTART := by rw [hc]; exact hR
      have hE : eventsNoNack (c :: cs) = eventsNoNack cs + 2 := by
        by_cases hD : c = I2C_READ
        · subst hD
          obtain ⟨c1, c2, c3⟩ := count_read cs
          simp only [eventsNoNack, c1, c2, c3]; omega
        · obtain ⟨c1, c2, c3⟩ := count_write c cs hR hD
          simp only [eventsNoNack, c1, c2, c3]; omega
      rw [hE] at hlen
      match evs, hlen, hn with
      | e1 :: e2 :: rest, hlen, hn =>
        obtain ⟨hn1, _, hn3⟩ := hn
        obtain ⟨hs1, hr2, hq, hl2⟩ := ready_data d e1 e2 s cs.length hr hl hlt hcR hn1
        have := ih rest (event d e2 (event d e1 s)) hr2
          (by rw [event_seqmem, event_seqmem, hq]; exact hm) hl2 (by omega) hn3
          (by simpa using hlen)
        rcases hs1 with ⟨hD, h⟩ | ⟨hD, h⟩
        · rw [hc] at hD
          simp [receivedBytes, bytesByCommand, hr.not_received, h, this, hD, tag_ne]
        · rw [hc] at hD
          simp [receivedBytes, bytesByCommand, hr.not_received, h, this, hR, hD]

theorem started_eq (d : Header) (sequence sequence_length received_data wakeup_sr_bits : Nat)
    (s : State) (h : s.i2c_state = I2C_IDLE) :
    started d sequence sequence_length received_data wakeup_sr_bits s =
      { s with
        i2c_sequence := sequence
        i2c_sequence_length := sequence_length
        i2c_receive_buffer := received_data
        i2c_wakeup_sr_bits := wakeup_sr_bits
        i2c_state := I2C_START
        USICTL1 := s.USICTL1 ||| d.USIIFG } := by
  simp [started, i2c_send_sequence_pass, h]

theorem NoNack_take (d : Header) (evs : List BusInput) :
    ∀ (n : Nat) (s : State), NoNack d evs s → NoNack d (evs.take n) s := by
  induction evs with
  | nil => intro n s h; simpa using h
  | cons e es ih =>
    intro n s h
    cases n with
    | zero => simp [NoNack]
    | succ n => exact ⟨h.1, ih n _ h.2⟩

/-- C1 (amended): in a run started by `i2c_send_sequence` on the command words
`cmds`, with no NACK seen at any HandleRxTx event, the protocol state is Idle
for the first time after exactly
1 + 2 * (Writes) + 2 * (Reads) + 1 * (Restarts) + 1 events: a Restart costs one
event, not two. -/
theorem no_nack_run_first_idle (d : Header) (cmds : List Nat)
    (sequence received_data wakeup_sr_bits : Nat) (evs : List BusInput) (s : State)
    (hidle : s.i2c_state = I2C_IDLE) (hmem : holds s.seqmem sequence cmds)
    (hlen : cmds.length < 65536)
    (hnn : NoNack d evs (started d sequence cmds.length received_data wakeup_sr_bits s))
    (hev : 1 + 2 * nWrite cmds + 2 * nRead cmds + nRestart cmds + 1 ≤ evs.length) :
    (run d (evs.take (1 + 2 * nWrite cmds + 2 * nRead cmds + nRestart cmds + 1))
        (started d sequence cmds.length received_data wakeup_sr_bits s)).i2c_state = I2C_IDLE ∧
    ∀ j, j < 1 + 2 * nWrite cmds + 2 * nRead cmds + nRestart cmds + 1 →
      (run d (evs.take j)
        (started d sequence cmds.length received_data wakeup_sr_bits s)).i2c_state ≠ I2C_IDLE := by
  have hs := started_eq d sequence cmds.length received_data wakeup_sr_bits s hidle
  have h := firstIdle_ready d cmds evs
    (started d sequence cmds.length received_data wakeup_sr_bits s)
    (by rw [hs]; exact Or.inl rfl) (by rw [hs]; exact hmem) (by rw [hs]) hlen hnn hev
  exact (firstIdle_spec d evs _ _ h).2

/-- Witness of `no_nack_run_first_idle`: scenario B, nine events. -/
theorem no_nack_run_first_idle_witness :
    (run msp430g2412 (scenarioB_events.take 9)
        (started msp430g2412 0 4 200 0 (idleWith scenarioB))).i2c_state = I2C_IDLE ∧
    ∀ j, j < 9 →
      (run msp430g2412 (scenarioB_events.take j)
        (started msp430g2412 0 4 200 0 (idleWith scenarioB))).i2c_state ≠ I2C_IDLE :=
  no_nack_run_first_idle msp430g2412 scenarioB 0 200 0 scenarioB_events (idleWith scenarioB)
    rfl (by decide) (by decide) (by decide) (by decide)

/-- Counterexample to C1 as stated: for the single command Restart the claim's
count is 1 + 2 + 1 = 4, but the state is already Idle after 3 events. -/
theorem restart_two_events_counterexample :
    holds (idleWith [I2C_RESTART]).seqmem 0 [I2C_RESTART] ∧
    NoNack msp430g2412 [shifted 0, shifted 0, shifted 0, shifted 0]
      (started msp430g2412 0 1 200 0 (idleWith [I2C_RESTART])) ∧
    1 + 2 * nWrite [I2C_RESTART] + 2 * nRead [I2C_RESTART] + 2 * nRestart [I2C_RESTART] + 1 = 4 ∧
    (run msp430g2412 ([shifted 0, shifted 0, shifted 0, shifted 0].take 3)
      (started msp430g2412 0 1 200 0 (idleWith [I2C_RESTART]))).i2c_state = I2C_IDLE := by
  decide

/-- C2: in a run started by `i2c_send_sequence` on `cmds` with no NACK seen at
any HandleRxTx event, once the state is back to Idle the receive buffer holds
in its first `nRead cmds` slots, in order, the shift-register bytes present at
the ReceivedData events; there is exactly one such event per Read command,
these bytes are those of the Reads in command order (`bytesByCommand`), and
every other address of the receive memory is unchanged. -/
theorem no_nack_run_receive_buffer (d : Header) (cmds : List Nat)
    (sequence received_data wakeup_sr_bits : Nat) (evs : List BusInput) (s : State)
    (hidle : s.i2c_state = I2C_IDLE) (hmem : holds s.seqmem sequence cmds)
    (hlen : cmds.length < 65536)
    (hnn : NoNack d evs (started d sequence cmds.length received_data wakeup_sr_bits s))
    (hev : evs.length = 1 + 2 * nWrite cmds + 2 * nRead cmds + nRestart cmds + 1) :
    (run d evs (started d sequence cmds.length received_data wakeup_sr_bits s)).i2c_state
      = I2C_IDLE ∧
    (receivedBytes d evs
      (started d sequence cmds.length received_data wakeup_sr_bits s)).length = nRead cmds ∧
    (∀ j, j < nRead cmds →
      (run d evs (started d sequence cmds.length received_data wakeup_sr_bits s)).rxmem
          (received_data + j) =
        (receivedBytes d evs
          (started d sequence cmds.length received_data wakeup_sr_bits s)).getD j 0) ∧
    (∀ a, a < received_data ∨ received_data + nRead cmds ≤ a →
      (run d evs (started d sequence cmds.length received_data wakeup_sr_bits s)).rxmem a =
        s.rxmem a) ∧
    receivedBytes d evs (started d sequence cmds.length received_data wakeup_sr_bits s)
      = bytesByCommand cmds evs := by
  have hs := started_eq d sequence cmds.length received_data wakeup_sr_bits s hidle
  have hr : Ready (started d sequence cmds.length received_data wakeup_sr_bits s) := by
    rw [hs]; exact Or.inl rfl
  have hm : holds (started d sequence cmds.length received_data wakeup_sr_bits s).seqmem
      (started d sequence cmds.length received_data wakeup_sr_bits s).i2c_sequence cmds := by
    rw [hs]; exact hmem
  have hl : (started d sequence cmds.length received_data wakeup_sr_bits s).i2c_sequence_length
      = cmds.length := by rw [hs]
  have h1 := firstIdle_ready d cmds evs _ hr hm hl hlen hnn (by rw [hev]; rfl)
  obtain ⟨_, hI, _⟩ := firstIdle_spec d evs _ _ h1
  have htake : evs.take (eventsNoNack cmds) = evs :=
    List.take_of_length_le (by rw [hev]; exact le_refl _)
  rw [htake] at hI
  obtain ⟨r1, _, r3⟩ := received_ready d cmds evs _ hr hm hl hlen hnn hev
  have hb : (started d sequence cmds.length received_data wakeup_sr_bits s).i2c_receive_buffer
      = received_data := by rw [hs]
  have hx : (started d sequence cmds.length received_data wakeup_sr_bits s).rxmem = s.rxmem := by
    rw [hs]
  rw [hb, hx] at r3
  refine ⟨hI, r1, ?_, ?_, receivedBytes_by_command d cmds evs _ hr hm hl hlen hnn hev⟩
  · intro j hj
    rw [r3]
    have : received_data ≤ received_data + j ∧ received_data + j < received_data + nRead cmds := by
      omega
    simp [this]
  · intro a ha
    rw [r3]
    have : ¬ (received_data ≤ a ∧ a < received_data + nRead cmds) := by omega
    simp [this]

/-- Witness of `no_nack_run_receive_buffer`: scenario B, the Read receives 0x42
and the receive buffer of length one at address 200 ends as [0x42]. -/
theorem no_nack_run_receive_buffer_witness :
    ((run msp430g2412 scenarioB_events
        (started msp430g2412 0 scenarioB.length 200 0 (idleWith scenarioB))).i2c_state
      = I2C_IDLE ∧
    (receivedBytes msp430g2412 scenarioB_events
      (started msp430g2412 0 scenarioB.length 200 0 (idleWith scenarioB))).length
      = nRead scenarioB ∧
    (∀ j, j < nRead scenarioB →
      (run msp430g2412 scenarioB_events
          (started msp430g2412 0 scenarioB.length 200 0 (idleWith scenarioB))).rxmem (200 + j) =
        (receivedBytes msp430g2412 scenarioB_events
          (started msp430g2412 0 scenarioB.length 200 0 (idleWith scenarioB))).getD j 0) ∧
    (∀ a, a < 200 ∨ 200 + nRead scenarioB ≤ a →
      (run msp430g2412 scenarioB_events
          (started msp430g2412 0 scenarioB.length 200 0 (idleWith scenarioB))).rxmem a =
        (idleWith scenarioB).rxmem a) ∧
    receivedBytes msp430g2412 scenarioB_events
      (started msp430g2412 0 scenarioB.length 200 0 (idleWith scenarioB))
      = bytesByCommand scenarioB scenarioB_events) ∧
    nRead scenarioB = 1 ∧
    receivedBytes msp430g2412 scenarioB_events
      (started msp430g2412 0 scenarioB.length 200 0 (idleWith scenarioB)) = [0x42] ∧
    (run msp430g2412 scenarioB_events
      (started msp430g2412 0 scenarioB.length 200 0 (idleWith scenarioB))).rxmem 200 = 0x42 :=
  ⟨no_nack_run_receive_buffer msp430g2412 scenarioB 0 200 0 scenarioB_events (idleWith scenarioB)
    rfl (by decide) (by decide) (by decide) (by decide), by decide, by decide, by decide⟩

/-- C10 (amended): for the commands [Write(0xA0), Write(0x10), Write(0xFF)]
started by `i2c_send_sequence` with every byte acknowledged, the transaction is
in Idle for the first time after exactly 8 events (one Start, two per Write,
one Stop), with the receive memory and the receive cursor untouched. -/
theorem scenario_write_only (d : Header) (sequence received_data wakeup_sr_bits : Nat)
    (evs : List BusInput) (s : State)
    (hidle : s.i2c_state = I2C_IDLE) (hmem : holds s.seqmem sequence [0xA0, 0x10, 0xFF])
    (hnn : NoNack d evs (started d sequence 3 received_data wakeup_sr_bits s))
    (hev : 8 ≤ evs.length) :
    (run d (evs.take 8) (started d sequence 3 received_data wakeup_sr_bits s)).i2c_state
      = I2C_IDLE ∧
    (∀ j, j < 8 →
      (run d (evs.take j) (started d sequence 3 received_data wakeup_sr_bits s)).i2c_state
        ≠ I2C_IDLE) ∧
    (run d (evs.take 8) (started d sequence 3 received_data wakeup_sr_bits s)).rxmem = s.rxmem ∧
    (run d (evs.take 8) (started d sequence 3 received_data wakeup_sr_bits s)).i2c_receive_buffer
      = received_data := by
  have hs := started_eq d sequence 3 received_data wakeup_sr_bits s hidle
  have hr : Ready (started d sequence 3 received_data wakeup_sr_bits s) := by
    rw [hs]; exact Or.inl rfl
  have hm : holds (started d sequence 3 received_data wakeup_sr_bits s).seqmem
      (started d sequence 3 received_data wakeup_sr_bits s).i2c_sequence [0xA0, 0x10, 0xFF] := by
    rw [hs]; exact hmem
  have hl : (started d sequence 3 received_data wakeup_sr_bits s).i2c_sequence_length
      = [0xA0, 0x10, 0xFF].length := by rw [hs]; rfl
  have hN : eventsNoNack [0xA0, 0x10, 0xFF] = 8 := by decide
  have hR : nRead [0xA0, 0x10, 0xFF] = 0 := by decide
  have h1 := firstIdle_ready d _ evs _ hr hm hl (by decide) hnn (by rw [hN]; exact hev)
  rw [hN] at h1
  obtain ⟨_, hI, hJ⟩ := firstIdle_spec d evs _ _ h1
  obtain ⟨_, r2, r3⟩ := received_ready d _ (evs.take 8) _ hr hm hl (by decide)
    (NoNack_take d evs 8 _ hnn) (by rw [hN, List.length_take]; omega)
  rw [hR] at r2 r3
  refine ⟨hI, hJ, ?_, ?_⟩
  · funext a
    rw [r3]
    simp [hs]
  · rw [r2]; simp [hs]

/-- Witness of `scenario_write_only`: the reset state with the three writes at
address 0 and eight acknowledged events. -/
theorem scenario_write_only_witness :
    (run msp430g2412 (scenarioA_events.take 8)
      (started msp430g2412 0 3 200 0 (idleWith scenarioA))).i2c_state = I2C_IDLE ∧
    (∀ j, j < 8 →
      (run msp430g2412 (scenarioA_events.take j)
        (started msp430g2412 0 3 200 0 (idleWith scenarioA))).i2c_state ≠ I2C_IDLE) ∧
    (run msp430g2412 (scenarioA_events.take 8)
      (started msp430g2412 0 3 200 0 (idleWith scenarioA))).rxmem = (idleWith scenarioA).rxmem ∧
    (run msp430g2412 (scenarioA_events.take 8)
      (started msp430g2412 0 3 200 0 (idleWith scenarioA))).i2c_receive_buffer = 200 :=
  scenario_write_only msp430g2412 0 200 0 scenarioA_events (idleWith scenarioA)
    rfl (by decide) (by decide) (by decide)

/-- Counterexample to C10 as stated: with every byte acknowledged, after 7
events the state is Stop, not Idle; Idle comes with the eighth event. -/
theorem scenario_write_only_seven_counterexample :
    holds (idleWith scenarioA).seqmem 0 [0xA0, 0x10, 0xFF] ∧
    NoNack msp430g2412 scenarioA_events (started msp430g2412 0 3 200 0 (idleWith scenarioA)) ∧
    (run msp430g2412 (scenarioA_events.take 7)
      (started msp430g2412 0 3 200 0 (idleWith scenarioA))).i2c_state = I2C_STOP ∧
    (run msp430g2412 (scenarioA_events.take 8)
      (started msp430g2412 0 3 200 0 (idleWith scenarioA))).i2c_state = I2C_IDLE := by
  decide

/-! ## The blocking call -/

theorem send_sequence_eq (d : Header) (sequence sequence_length received_data wakeup_sr_bits : Nat)
    (evs : List BusInput) :
    ∀ s : State,
      i2c_send_sequence d sequence sequence_length received_data wakeup_sr_bits evs s =
        (firstIdle d evs s).map (fun k =>
          (started d sequence sequence_length received_data wakeup_sr_bits
            (run d (evs.take k) s), evs.drop k)) := by
  induction evs with
  | nil =>
    intro s
    by_cases h : s.i2c_state = I2C_IDLE
    · simp [i2c_send_sequence, i2c_send_sequence_pass, firstIdle, started, h, run]
    · simp [i2c_send_sequence, i2c_send_sequence_pass, firstIdle, h]
  | cons e es ih =>
    intro s
    by_cases h : s.i2c_state = I2C_IDLE
    · simp [i2c_send_sequence, i2c_send_sequence_pass, firstIdle, started, h, run]
    · rw [i2c_send_sequence]
      simp only [i2c_send_sequence_pass, h, ne_eq, not_false_eq_true, if_true]
      rw [ih]
      simp only [firstIdle, h, if_false]
      cases firstIdle d es (event d e s) <;> simp [run]

/-- C6: called with the protocol state Idle, `i2c_send_sequence` returns at once
(no event is served) with the command pointer, remaining length, receive
cursor and wake mask equal to its arguments, the state Start and USIIFG set in
USICTL1; every other bit of USICTL1, every other register and both memories
are unchanged. -/
theorem send_sequence_installs (d : Header)
    (sequence sequence_length received_data wakeup_sr_bits : Nat)
    (evs : List BusInput) (s : State) (hidle : s.i2c_state = I2C_IDLE) :
    i2c_send_sequence d sequence sequence_length received_data wakeup_sr_bits evs s =
      some ({ s with
              i2c_sequence := sequence
              i2c_sequence_length := sequence_length
              i2c_receive_buffer := received_data
              i2c_wakeup_sr_bits := wakeup_sr_bits
              i2c_state := I2C_START
              USICTL1 := s.USICTL1 ||| d.USIIFG }, evs) ∧
    (∀ i, d.USIIFG.testBit i = true → (s.USICTL1 ||| d.USIIFG).testBit i = true) ∧
    (∀ i, d.USIIFG.testBit i = false →
      (s.USICTL1 ||| d.USIIFG).testBit i = s.USICTL1.testBit i) := by
  refine ⟨?_, ?_, ?_⟩
  · cases evs <;> simp [i2c_send_sequence, i2c_send_sequence_pass, hidle]
  · intro i hi; simp [Nat.testBit_or, hi]
  · intro i hi; simp [Nat.testBit_or, hi]

/-- Witness of `send_sequence_installs`: the reset state, scenario A. -/
theorem send_sequence_installs_witness :
    i2c_send_sequence msp430g2412 0 3 200 0x10 scenarioA_events (idleWith scenarioA) =
      some ({ idleWith scenarioA with
              i2c_sequence := 0
              i2c_sequence_length := 3
              i2c_receive_buffer := 200
              i2c_wakeup_sr_bits := 0x10
              i2c_state := I2C_START
              USICTL1 := (idleWith scenarioA).USICTL1 ||| msp430g2412.USIIFG }, scenarioA_events) ∧
    (∀ i, msp430g2412.USIIFG.testBit i = true →
      ((idleWith scenarioA).USICTL1 ||| msp430g2412.USIIFG).testBit i = true) ∧
    (∀ i, msp430g2412.USIIFG.testBit i = false →
      ((idleWith scenarioA).USICTL1 ||| msp430g2412.USIIFG).testBit i =
        (idleWith scenarioA).USICTL1.testBit i) :=
  send_sequence_installs msp430g2412 0 3 200 0x10 scenarioA_events (idleWith scenarioA) rfl

/-- C9: called while the protocol state is not Idle, `i2c_send_sequence` stays
in its wait loop: a pass over the loop leaves the whole state as it is and
does not return; with no further event the call never returns; and when it
does return, after `k` events, the state was not Idle before any of the first
`k` events, it was Idle after the `k`-th, and the arguments were installed on
exactly the state the handler alone had produced from the active transaction. -/
theorem send_sequence_waits (d : Header)
    (sequence sequence_length received_data wakeup_sr_bits : Nat) (s : State)
    (hbusy : s.i2c_state ≠ I2C_IDLE) :
    i2c_send_sequence_pass d sequence sequence_length received_data wakeup_sr_bits s
      = (s, false) ∧
    i2c_send_sequence d sequence sequence_length received_data wakeup_sr_bits [] s = none ∧
    (∀ evs : List BusInput,
      (∀ k, k ≤ evs.length → (run d (evs.take k) s).i2c_state ≠ I2C_IDLE) →
      i2c_send_sequence d sequence sequence_length received_data wakeup_sr_bits evs s = none) ∧
    (∀ (evs : List BusInput) (s1 : State) (rest : List BusInput),
      i2c_send_sequence d sequence sequence_length received_data wakeup_sr_bits evs s
        = some (s1, rest) →
      ∃ k, 0 < k ∧ k ≤ evs.length ∧ rest = evs.drop k ∧
        (∀ j, j < k → (run d (evs.take j) s).i2c_state ≠ I2C_IDLE) ∧
        (run d (evs.take k) s).i2c_state = I2C_IDLE ∧
        s1 = { run d (evs.take k) s with
                i2c_sequence := sequence
                i2c_sequence_length := sequence_length
                i2c_receive_buffer := received_data
                i2c_wakeup_sr_bits := wakeup_sr_bits
                i2c_state := I2C_START
                USICTL1 := (run d (evs.take k) s).USICTL1 ||| d.USIIFG }) := by
  refine ⟨?_, ?_, ?_, ?_⟩
  · simp [i2c_send_sequence_pass, hbusy]
  · simp [i2c_send_sequence, i2c_send_sequence_pass, hbusy]
  · intro evs hall
    rw [send_sequence_eq]
    cases hf : firstIdle d evs s with
    | none => rfl
    | some k =>
      obtain ⟨h1, h2, _⟩ := firstIdle_spec d evs s k hf
      exact absurd h2 (hall k h1)
  · intro evs s1 rest h
    rw [send_sequence_eq] at h
    cases hf : firstIdle d evs s with
    | none => simp [hf] at h
    | some k =>
      simp only [hf, Option.map_some', Option.some.injEq, Prod.mk.injEq] at h
      obtain ⟨h1, h2, h3⟩ := firstIdle_spec d evs s k hf
      refine ⟨k, ?_, h1, h.2.symm, h3, h2, ?_⟩
      · rcases Nat.eq_zero_or_pos k with hk | hk
        · subst hk
          exact absurd (by simpa [run] using h2) hbusy
        · exact hk
      · rw [← h.1]
        exact started_eq d sequence sequence_length received_data wakeup_sr_bits _ h2

/-- Witness of `send_sequence_waits`: a second call in the middle of scenario A. -/
theorem send_sequence_waits_witness :
    busyState.i2c_state ≠ I2C_IDLE ∧
    i2c_send_sequence_pass msp430g2412 50 2 300 0 busyState = (busyState, false) ∧
    i2c_send_sequence msp430g2412 50 2 300 0 [] busyState = none :=
  ⟨by decide,
    (send_sequence_waits msp430g2412 50 2 300 0 busyState (by decide)).1,
    (send_sequence_waits msp430g2412 50 2 300 0 busyState (by decide)).2.1⟩

/-! ## NACK -/

/-- C3: when the handler is entered in state HandleRxTx with bit 0 of the shift
register set (a NACK), exactly two events bring the protocol state to Idle:
the first performs STOP framing (state Stop, shift register 0x00), the second
the STOP (state Idle, shift register 0xFF).  Across both, the command pointer,
the remaining length, the command memory, the receive memory and the receive
cursor are unchanged, so no command is consumed and no Write byte is loaded. -/
theorem nack_stops_in_two_events (d : Header) (e : BusInput) (s : State)
    (hbit : d.BIT0 = 1) (hs : s.i2c_state = I2C_HANDLE_RXTX)
    (hnack : s.USISRL.testBit 0 = true) :
    (USI_TXRX d s).i2c_state = I2C_STOP ∧
    (event d e (USI_TXRX d s)).i2c_state = I2C_IDLE ∧
    (USI_TXRX d s).USISRL = 0x00 ∧
    (event d e (USI_TXRX d s)).USISRL = 0xFF ∧
    ((USI_TXRX d s).i2c_sequence = s.i2c_sequence ∧
      (event d e (USI_TXRX d s)).i2c_sequence = s.i2c_sequence) ∧
    ((USI_TXRX d s).i2c_sequence_length = s.i2c_sequence_length ∧
      (event d e (USI_TXRX d s)).i2c_sequence_length = s.i2c_sequence_length) ∧
    ((USI_TXRX d s).seqmem = s.seqmem ∧ (event d e (USI_TXRX d s)).seqmem = s.seqmem) ∧
    ((USI_TXRX d s).rxmem = s.rxmem ∧ (event d e (USI_TXRX d s)).rxmem = s.rxmem) ∧
    ((USI_TXRX d s).i2c_receive_buffer = s.i2c_receive_buffer ∧
      (event d e (USI_TXRX d s)).i2c_receive_buffer = s.i2c_receive_buffer) := by
  have hn : s.USISRL &&& d.BIT0 ≠ 0 := by
    rw [hbit, Nat.and_one_is_mod]
    have := Nat.testBit_zero s.USISRL
    rw [hnack] at this
    simpa using this.symm
  rcases s with ⟨p, n, rb, wk, st, c0, c1, ck, cnt, srl, sr, sm, rm⟩
  simp only at hs hn
  subst hs
  simp [event, completion, USI_TXRX, i2c_prepare_stop, hn, bic_SR_register_on_exit]
  split_ifs <;> simp

/-- Witness of `nack_stops_in_two_events`: scenario C, the address 0xA0 is
refused; the receive memory is the untouched reset pattern. -/
theorem nack_stops_in_two_events_witness :
    scenarioC_nack.i2c_state = I2C_HANDLE_RXTX ∧
    (event msp430g2412 (shifted 0) (USI_TXRX msp430g2412 scenarioC_nack)).i2c_state = I2C_IDLE ∧
    (event msp430g2412 (shifted 0) (USI_TXRX msp430g2412 scenarioC_nack)).rxmem
      = (idleWith [0xA0]).rxmem ∧
    (event msp430g2412 (shifted 0) (USI_TXRX msp430g2412 scenarioC_nack)).i2c_receive_buffer
      = 200 :=
  have h := nack_stops_in_two_events msp430g2412 (shifted 0) scenarioC_nack rfl (by decide)
    (by decide)
  ⟨by decide, h.2.1, h.2.2.2.2.2.2.2.1.2, h.2.2.2.2.2.2.2.2.2⟩

/-! ## Termination under arbitrary bus inputs -/

theorem eventsBound_step (d : Header) (e : BusInput) (s : State)
    (h : s.i2c_state ≠ I2C_IDLE) : eventsBound (event d e s) < eventsBound s := by
  have hst := event_state d e s
  have hl := event_length d e s
  have hdec : s.i2c_sequence_length ≠ 0 →
      (s.i2c_sequence_length + 65535) % 65536 < s.i2c_sequence_length := by
    intro h0; omega
  unfold eventsBound
  cases hs : s.i2c_state with
  | I2C_IDLE => exact absurd hs h
  | I2C_START =>
    simp only [hs] at hst
    by_cases ha : advances d e s
    · by_cases h0 : s.i2c_sequence_length = 0
      · simp only [ha, not_true_eq_false, if_false, h0, if_true] at hst
        rw [hst]; simp only; omega
      · have hl' : (event d e s).i2c_sequence_length < s.i2c_sequence_length := by
          rw [hl]; simp only [ha, h0, ne_eq, not_false_eq_true, and_self, if_true]
          exact hdec h0
        simp only [ha, not_true_eq_false, if_false, h0] at hst
        split_ifs at hst <;> rw [hst] <;> simp only <;> omega
    · simp only [ha, not_false_eq_true, if_true] at hst
      rw [hst]; simp only; omega
  | I2C_HANDLE_RXTX =>
    simp only [hs] at hst
    by_cases ha : advances d e s
    · by_cases h0 : s.i2c_sequence_length = 0
      · simp only [ha, not_true_eq_false, if_false, h0, if_true] at hst
        rw [hst]; simp only; omega
      · have hl' : (event d e s).i2c_sequence_length < s.i2c_sequence_length := by
          rw [hl]; simp only [ha, h0, ne_eq, not_false_eq_true, and_self, if_true]
          exact hdec h0
        simp only [ha, not_true_eq_false, if_false, h0] at hst
        split_ifs at hst <;> rw [hst] <;> simp only <;> omega
    · simp only [ha, not_false_eq_true, if_true] at hst
      rw [hst]; simp only; omega
  | I2C_PREPARE_ACKNACK =>
    have ha : ¬ advances d e s := by simp [advances, hs]
    simp only [hs] at hst
    simp only [ha, false_and, if_false] at hl
    rw [hst]; simp only; omega
  | I2C_RECEIVED_DATA =>
    have ha : ¬ advances d e s := by simp [advances, hs]
    simp only [hs] at hst
    simp only [ha, false_and, if_false] at hl
    split_ifs at hst <;> rw [hst] <;> simp only <;> omega
  | I2C_PREPARE_STOP =>
    simp only [hs] at hst
    rw [hst]; simp
  | I2C_STOP =>
    simp only [hs] at hst
    rw [hst]; simp

theorem eventsBound_zero (s : State) (h : eventsBound s = 0) : s.i2c_state = I2C_IDLE := by
  unfold eventsBound at h
  cases hs : s.i2c_state <;> simp_all

theorem event_idle (d : Header) (e : BusInput) (s : State) (h : s.i2c_state = I2C_IDLE) :
    (event d e s).i2c_state = I2C_IDLE := by
  rw [event_state, h]

theorem run_idle (d : Header) (evs : List BusInput) :
    ∀ s : State, s.i2c_state = I2C_IDLE → (run d evs s).i2c_state = I2C_IDLE := by
  induction evs with
  | nil => intro s h; exact h
  | cons e es ih => intro s h; exact ih _ (event_idle d e s h)

theorem run_bound (d : Header) (evs : List BusInput) :
    ∀ s : State, eventsBound s ≤ evs.length → (run d evs s).i2c_state = I2C_IDLE := by
  induction evs with
  | nil =>
    intro s h
    exact eventsBound_zero s (by simpa using h)
  | cons e es ih =>
    intro s h
    by_cases hs : s.i2c_state = I2C_IDLE
    · exact run_idle d _ s hs
    · have := eventsBound_step d e s hs
      exact ih _ (by simp only [List.length_cons] at h; omega)

theorem eventsBound_run (d : Header) (evs : List BusInput) :
    ∀ s : State, eventsBound (run d evs s) ≤ eventsBound s := by
  induction evs with
  | nil => intro s; exact le_refl _
  | cons e es ih =>
    intro s
    by_cases hs : s.i2c_state = I2C_IDLE
    · have h1 := run_idle d (e :: es) s hs
      simp [eventsBound, h1]
    · exact le_trans (ih _) (le_of_lt (eventsBound_step d e s hs))

theorem firstIdle_exists (d : Header) (evs : List BusInput) :
    ∀ s : State, (run d evs s).i2c_state = I2C_IDLE → ∃ k, firstIdle d evs s = some k := by
  induction evs with
  | nil => intro s h; exact ⟨0, by simpa [firstIdle, run] using h⟩
  | cons e es ih =>
    intro s h
    by_cases hs : s.i2c_state = I2C_IDLE
    · exact ⟨0, by simp [firstIdle, hs]⟩
    · obtain ⟨k, hk⟩ := ih _ h
      exact ⟨k + 1, by simp [firstIdle, hs, hk]⟩

theorem event_idle_from (d : Header) (e : BusInput) (s : State)
    (h : (event d e s).i2c_state = I2C_IDLE) :
    s.i2c_state = I2C_IDLE ∨ s.i2c_state = I2C_STOP := by
  rw [event_state] at h
  cases hs : s.i2c_state <;> simp only [hs] at h
  · simp
  · split_ifs at h
  · cases h
  · split_ifs at h
  · split_ifs at h
  · cases h
  · simp

theorem run_take_succ (d : Header) (evs : List BusInput) (s : State) (k : Nat)
    (hk : k < evs.length) :
    run d (evs.take (k + 1)) s = event d (evs.get ⟨k, hk⟩) (run d (evs.take k) s) := by
  induction evs generalizing s k with
  | nil => simp at hk
  | cons e es ih =>
    cases k with
    | zero => simp [run]
    | succ k =>
      simp only [List.take_succ_cons, run]
      exact ih (event d e s) k (by simpa using hk)

/-- C5: for every requested length `n`, every content of the command memory and
every sequence of bus inputs (NACKs included), a run started by
`i2c_send_sequence` is in Idle for the first time after some `k` events with
`k` at most 2 * n + 2, and stays Idle for every longer run; and from every state `t`
reached on the way, any further 2 * n + 2 events end in Idle, so no state
other than Idle is absorbing. -/
theorem run_reaches_idle (d : Header) (sequence n received_data wakeup_sr_bits : Nat)
    (s : State) (hidle : s.i2c_state = I2C_IDLE) :
    (∀ evs : List BusInput, 2 * n + 2 ≤ evs.length →
      ∃ k, k ≤ 2 * n + 2 ∧
        (run d (evs.take k) (started d sequence n received_data wakeup_sr_bits s)).i2c_state
          = I2C_IDLE ∧
        (∀ j, j < k →
          (run d (evs.take j) (started d sequence n received_data wakeup_sr_bits s)).i2c_state
            ≠ I2C_IDLE) ∧
        (∀ m, k ≤ m →
          (run d (evs.take m) (started d sequence n received_data wakeup_sr_bits s)).i2c_state
            = I2C_IDLE)) ∧
    (∀ pre post : List BusInput, 2 * n + 2 ≤ post.length →
      (run d post
        (run d pre (started d sequence n received_data wakeup_sr_bits s))).i2c_state
        = I2C_IDLE) := by
  have hs := started_eq d sequence n received_data wakeup_sr_bits s hidle
  have hb : eventsBound (started d sequence n received_data wakeup_sr_bits s) = 2 + 2 * n := by
    rw [hs]; rfl
  constructor
  · intro evs hlen
    have hI := run_bound d (evs.take (2 * n + 2))
      (started d sequence n received_data wakeup_sr_bits s)
      (by rw [hb, List.length_take]; omega)
    obtain ⟨k, hk⟩ := firstIdle_exists d _ _ hI
    obtain ⟨h1, h2, h3⟩ := firstIdle_spec d _ _ _ hk
    have hk' : k ≤ 2 * n + 2 := by
      rw [List.length_take] at h1; omega
    have htt : ∀ j, j ≤ k → (evs.take (2 * n + 2)).take j = evs.take j := by
      intro j hj
      rw [List.take_take, Nat.min_eq_left (by omega)]
    rw [htt k (le_refl _)] at h2
    refine ⟨k, hk', h2, ?_, ?_⟩
    · intro j hj
      have := h3 j hj
      rwa [htt j (by omega)] at this
    · intro m hm
      have hsplit : evs.take m = evs.take k ++ (evs.drop k).take (m - k) := by
        have : m = k + (m - k) := by omega
        conv_lhs => rw [this]
        rw [List.take_add]
      rw [hsplit, run_append]
      exact run_idle d _ _ h2
  · intro pre post hlen
    apply run_bound
    have := eventsBound_run d pre (started d sequence n received_data wakeup_sr_bits s)
    omega

/-- Witness of `run_reaches_idle`: scenario A with every byte refused. -/
theorem run_reaches_idle_witness :
    (∃ k, k ≤ 2 * 3 + 2 ∧
        (run msp430g2412 (allNacked.take k)
          (started msp430g2412 0 3 200 0 (idleWith scenarioA))).i2c_state = I2C_IDLE ∧
        (∀ j, j < k →
          (run msp430g2412 (allNacked.take j)
            (started msp430g2412 0 3 200 0 (idleWith scenarioA))).i2c_state ≠ I2C_IDLE) ∧
        (∀ m, k ≤ m →
          (run msp430g2412 (allNacked.take m)
            (started msp430g2412 0 3 200 0 (idleWith scenarioA))).i2c_state = I2C_IDLE)) ∧
    (run msp430g2412 (allNacked.take 4)
      (started msp430g2412 0 3 200 0 (idleWith scenarioA))).i2c_state = I2C_IDLE :=
  ⟨(run_reaches_idle msp430g2412 0 3 200 0 (idleWith scenarioA) rfl).1 allNacked (by decide),
    by decide⟩

/-! ## START first, STOP last -/

/-- C7: in a run started by `i2c_send_sequence`, for every requested length
(zero included), every content of the command memory and every sequence of
bus inputs, the first event is entered in state Start; the state is Idle for
the first time after some `k` events, with `k` at least 2; the last of these
events is entered in state Stop and no earlier one is; and in any state
whatever, an event that leaves the state Idle was entered in Stop (or in
Idle, where the handler does nothing). -/
theorem start_first_stop_last (d : Header) (sequence n received_data wakeup_sr_bits : Nat)
    (evs : List BusInput) (s : State) (hidle : s.i2c_state = I2C_IDLE)
    (hlen : 2 * n + 2 ≤ evs.length) :
    (started d sequence n received_data wakeup_sr_bits s).i2c_state = I2C_START ∧
    (∃ k, 2 ≤ k ∧ k ≤ 2 * n + 2 ∧
      (run d (evs.take k) (started d sequence n received_data wakeup_sr_bits s)).i2c_state
        = I2C_IDLE ∧
      (∀ j, j < k →
        (run d (evs.take j) (started d sequence n received_data wakeup_sr_bits s)).i2c_state
          ≠ I2C_IDLE) ∧
      (run d (evs.take (k - 1)) (started d sequence n received_data wakeup_sr_bits s)).i2c_state
        = I2C_STOP ∧
      (∀ j, j < k - 1 →
        (run d (evs.take j) (started d sequence n received_data wakeup_sr_bits s)).i2c_state
          ≠ I2C_STOP)) ∧
    (∀ (t : State) (e : BusInput), (event d e t).i2c_state = I2C_IDLE →
      t.i2c_state = I2C_IDLE ∨ t.i2c_state = I2C_STOP) := by
  have hs := started_eq d sequence n received_data wakeup_sr_bits s hidle
  have hst : (started d sequence n received_data wakeup_sr_bits s).i2c_state = I2C_START := by
    rw [hs]
  have hb : eventsBound (started d sequence n received_data wakeup_sr_bits s) = 2 + 2 * n := by
    rw [hs]; rfl
  refine ⟨hst, ?_, fun t e h => event_idle_from d e t h⟩
  have hI := run_bound d (evs.take (2 * n + 2))
    (started d sequence n received_data wakeup_sr_bits s)
    (by rw [hb, List.length_take]; omega)
  obtain ⟨k, hk⟩ := firstIdle_exists d _ _ hI
  obtain ⟨h1, h2, h3⟩ := firstIdle_spec d _ _ _ hk
  have hk' : k ≤ 2 * n + 2 := by
    rw [List.length_take] at h1; omega
  have htt : ∀ j, j ≤ k → (evs.take (2 * n + 2)).take j = evs.take j := by
    intro j hj
    rw [List.take_take, Nat.min_eq_left (by omega)]
  rw [htt k (le_refl _)] at h2
  have h3' : ∀ j, j < k →
      (run d (evs.take j) (started d sequence n received_data wakeup_sr_bits s)).i2c_state
        ≠ I2C_IDLE := by
    intro j hj
    have := h3 j hj
    rwa [htt j (by omega)] at this
  -- the step into Idle comes from Stop
  have hk0 : 0 < k := by
    rcases Nat.eq_zero_or_pos k with h0 | h0
    · subst h0
      rw [List.take_zero] at h2
      simp only [run] at h2
      rw [hst] at h2
      cases h2
    · exact h0
  have hkl : k - 1 < evs.length := by omega
  have hstep := run_take_succ d evs (started d sequence n received_data wakeup_sr_bits s)
    (k - 1) hkl
  rw [Nat.sub_add_cancel hk0] at hstep
  have hstop : (run d (evs.take (k - 1))
      (started d sequence n received_data wakeup_sr_bits s)).i2c_state = I2C_STOP := by
    rcases event_idle_from d _ _ (by rw [← hstep]; exact h2) with h | h
    · exact absurd h (h3' (k - 1) (by omega))
    · exact h
  have hk2 : 2 ≤ k := by
    rcases Nat.lt_or_ge k 2 with hlt | hge
    · have hk1 : k - 1 = 0 := by omega
      rw [hk1, List.take_zero] at hstop
      simp only [run] at hstop
      rw [hst] at hstop
      cases hstop
    · exact hge
  refine ⟨k, hk2, hk', h2, h3', hstop, ?_⟩
  intro j hj hjs
  have hjl : j < evs.length := by omega
  have hnext := run_take_succ d evs (started d sequence n received_data wakeup_sr_bits s) j hjl
  have : (run d (evs.take (j + 1))
      (started d sequence n received_data wakeup_sr_bits s)).i2c_state = I2C_IDLE := by
    rw [hnext, event_state, hjs]
  exact h3' (j + 1) (by omega) this

/-- Witness of `start_first_stop_last`: the empty command sequence, two events. -/
theorem start_first_stop_last_witness :
    ((started msp430g2412 0 0 200 0 (idleWith [])).i2c_state = I2C_START ∧
    (∃ k, 2 ≤ k ∧ k ≤ 2 * 0 + 2 ∧
      (run msp430g2412 ([shifted 0, shifted 0].take k)
        (started msp430g2412 0 0 200 0 (idleWith []))).i2c_state = I2C_IDLE ∧
      (∀ j, j < k →
        (run msp430g2412 ([shifted 0, shifted 0].take j)
          (started msp430g2412 0 0 200 0 (idleWith []))).i2c_state ≠ I2C_IDLE) ∧
      (run msp430g2412 ([shifted 0, shifted 0].take (k - 1))
        (started msp430g2412 0 0 200 0 (idleWith []))).i2c_state = I2C_STOP ∧
      (∀ j, j < k - 1 →
        (run msp430g2412 ([shifted 0, shifted 0].take j)
          (started msp430g2412 0 0 200 0 (idleWith []))).i2c_state ≠ I2C_STOP)) ∧
    (∀ (t : State) (e : BusInput), (event msp430g2412 e t).i2c_state = I2C_IDLE →
      t.i2c_state = I2C_IDLE ∨ t.i2c_state = I2C_STOP)) ∧
    (run msp430g2412 [shifted 0] (started msp430g2412 0 0 200 0 (idleWith []))).i2c_state
      = I2C_STOP :=
  ⟨start_first_stop_last msp430g2412 0 0 200 0 [shifted 0, shifted 0] (idleWith []) rfl
    (by decide), by decide⟩

/-! ## The wake mask and the status register -/

theorem testBit_bic (r m i : Nat) :
    (bic r m).testBit i = (r.testBit i && !m.testBit i) := by
  simp only [bic, Nat.testBit_xor, Nat.testBit_and]
  cases r.testBit i <;> cases m.testBit i <;> rfl

theorem USI_TXRX_wakeup (d : Header) (s : State) :
    (USI_TXRX d s).i2c_wakeup_sr_bits = s.i2c_wakeup_sr_bits := by
  rcases s with ⟨p, n, rb, wk, st, c0, c1, ck, cnt, srl, sr, sm, rm⟩
  cases st <;>
    simp [USI_TXRX, i2c_prepare_data_xmit_recv, i2c_prepare_stop, bic_SR_register_on_exit] <;>
    split_ifs <;> simp

theorem USI_TXRX_SR (d : Header) (s : State) :
    (USI_TXRX d s).SR =
      if s.i2c_state = I2C_STOP ∧ s.i2c_wakeup_sr_bits ≠ 0 then bic s.SR s.i2c_wakeup_sr_bits
      else s.SR := by
  rcases s with ⟨p, n, rb, wk, st, c0, c1, ck, cnt, srl, sr, sm, rm⟩
  cases st <;>
    simp [USI_TXRX, i2c_prepare_data_xmit_recv, i2c_prepare_stop, bic_SR_register_on_exit] <;>
    split_ifs <;> simp_all

theorem run_wakeup (d : Header) (evs : List BusInput) :
    ∀ s : State, (run d evs s).i2c_wakeup_sr_bits = s.i2c_wakeup_sr_bits := by
  induction evs with
  | nil => intro s; rfl
  | cons e es ih => intro s; simp only [run]; rw [ih, event_wakeup]

/-- C8: in a run started by `i2c_send_sequence` with wake mask `m`, the mask
stays `m` after every event, and an event changes the status register SR only
when it is entered in state Stop with `m` non-zero, where SR becomes
SR AND NOT `m` (bit `i` of the result is bit `i` of SR and not bit `i` of `m`);
entered in Stop with `m` zero, or in any other state, the event leaves SR as it
is.  The same holds of the handler in every state whatever. -/
theorem wake_only_at_stop (d : Header) (sequence n received_data m : Nat)
    (evs : List BusInput) (s : State) (hidle : s.i2c_state = I2C_IDLE) :
    (∀ k, (run d (evs.take k) (started d sequence n received_data m s)).i2c_wakeup_sr_bits
      = m) ∧
    (∀ k, k < evs.length →
      (run d (evs.take (k + 1)) (started d sequence n received_data m s)).SR =
        if (run d (evs.take k) (started d sequence n received_data m s)).i2c_state = I2C_STOP
            ∧ m ≠ 0 then
          bic (run d (evs.take k) (started d sequence n received_data m s)).SR m
        else (run d (evs.take k) (started d sequence n received_data m s)).SR) ∧
    (∀ r i, (bic r m).testBit i = (r.testBit i && !m.testBit i)) ∧
    (∀ t : State,
      (USI_TXRX d t).i2c_wakeup_sr_bits = t.i2c_wakeup_sr_bits ∧
      (USI_TXRX d t).SR =
        if t.i2c_state = I2C_STOP ∧ t.i2c_wakeup_sr_bits ≠ 0 then bic t.SR t.i2c_wakeup_sr_bits
        else t.SR) := by
  have hs := started_eq d sequence n received_data m s hidle
  have hm : ∀ k, (run d (evs.take k)
      (started d sequence n received_data m s)).i2c_wakeup_sr_bits = m := by
    intro k; rw [run_wakeup, hs]
  refine ⟨hm, ?_, fun r i => testBit_bic r m i, fun t => ⟨USI_TXRX_wakeup d t, USI_TXRX_SR d t⟩⟩
  intro k hk
  rw [run_take_succ d evs _ k hk, event_SR, hm k]

/-- Witness of `wake_only_at_stop`: scenario A with wake mask 0x10 (CPUOFF) and
SR = 0xD8; the mask is 0x10 after all eight events, SR is still 0xD8 after
seven and 0xC8 after the eighth, the one entered in Stop. -/
theorem wake_only_at_stop_witness :
    (run msp430g2412 (scenarioA_events.take 8)
      (started msp430g2412 0 3 200 0x10 (idleWith scenarioA))).i2c_wakeup_sr_bits = 0x10 ∧
    ((run msp430g2412 (scenarioA_events.take 8)
      (started msp430g2412 0 3 200 0x10 (idleWith scenarioA))).SR =
        if (run msp430g2412 (scenarioA_events.take 7)
            (started msp430g2412 0 3 200 0x10 (idleWith scenarioA))).i2c_state = I2C_STOP
            ∧ 0x10 ≠ 0 then
          bic (run msp430g2412 (scenarioA_events.take 7)
            (started msp430g2412 0 3 200 0x10 (idleWith scenarioA))).SR 0x10
        else (run msp430g2412 (scenarioA_events.take 7)
          (started msp430g2412 0 3 200 0x10 (idleWith scenarioA))).SR) ∧
    (run msp430g2412 (scenarioA_events.take 7)
      (started msp430g2412 0 3 200 0x10 (idleWith scenarioA))).SR = 0xD8 ∧
    (run msp430g2412 (scenarioA_events.take 8)
      (started msp430g2412 0 3 200 0x10 (idleWith scenarioA))).SR = 0xC8 :=
  ⟨(wake_only_at_stop msp430g2412 0 3 200 0x10 scenarioA_events (idleWith scenarioA) rfl).1 8,
    (wake_only_at_stop msp430g2412 0 3 200 0x10 scenarioA_events (idleWith scenarioA) rfl).2.1 7
      (by decide), by decide, by decide⟩

/-! ## The receive cursor -/

theorem holds_getD (mem : Nat → Nat) (cmds : List Nat) :
    ∀ p c, holds mem p cmds → c < cmds.length → mem (p + c) = cmds.getD c 0 := by
  induction cmds with
  | nil => intro p c _ hc; simp at hc
  | cons w ws ih =>
    intro p c h hc
    cases c with
    | zero => simpa using h.1
    | succ c =>
      have := ih (p + 1) c h.2 (by simpa using hc)
      rw [show p + (c + 1) = p + 1 + c by omega, this]
      simp

theorem nRead_take_succ (cmds : List Nat) :
    ∀ c, c < cmds.length →
      nRead (cmds.take (c + 1)) =
        nRead (cmds.take c) + (if cmds.getD c 0 = I2C_READ then 1 else 0) := by
  induction cmds with
  | nil => intro c hc; simp at hc
  | cons w ws ih =>
    intro c hc
    cases c with
    | zero =>
      by_cases hw : w = I2C_READ <;> simp [nRead, List.count_cons, hw]
    | succ c =>
      have := ih c (by simpa using hc)
      simp only [nRead] at this
      simp only [nRead, List.take_succ_cons, List.count_cons, this, List.getD_cons_succ]
      omega

theorem nRead_take_le (cmds : List Nat) (c : Nat) : nRead (cmds.take c) ≤ nRead cmds :=
  List.Sublist.count_le (List.take_sublist c cmds) I2C_READ

theorem receivedBytes_take_succ (d : Header) (evs : List BusInput) :
    ∀ (s : State) (k : Nat) (hk : k < evs.length),
      receivedBytes d (evs.take (k + 1)) s =
        receivedBytes d (evs.take k) s ++
          (if (run d (evs.take k) s).i2c_state = I2C_RECEIVED_DATA then
            [(evs.get ⟨k, hk⟩).USISRL % 256] else []) := by
  induction evs with
  | nil => intro s k hk; simp at hk
  | cons e es ih =>
    intro s k hk
    cases k with
    | zero => simp [receivedBytes, run]
    | succ k =>
      have := ih (event d e s) k (by simpa using hk)
      simp only [List.take_succ_cons, receivedBytes, run, this, List.get_cons_succ]
      split_ifs <;> simp

/-- An event enters ReceivedData only by consuming a Read. -/
theorem event_received_from (d : Header) (e : BusInput) (t : State)
    (h : (event d e t).i2c_state = I2C_RECEIVED_DATA) :
    advances d e t ∧ t.i2c_sequence_length ≠ 0 ∧ t.seqmem t.i2c_sequence = I2C_READ ∧
      (event d e t).i2c_sequence = t.i2c_sequence + 1 := by
  have hq := event_sequence d e t
  rw [event_state] at h
  cases hs : t.i2c_state <;> simp only [hs] at h
  · cases h
  · split_ifs at h with h1 h2 h3 h4
    exact ⟨h1, h2, h4, by rw [hq]; simp [h1, h2]⟩
  · cases h
  · split_ifs at h with h1 h2 h3 h4
    exact ⟨h1, h2, h4, by rw [hq]; simp [h1, h2]⟩
  · split_ifs at h
  · cases h
  · cases h

theorem CursorInv_event (d : Header) (cmds : List Nat) (sequence received_data : Nat)
    (e : BusInput) (t : State) (hmem : holds t.seqmem sequence cmds)
    (hlen : cmds.length < 65536) (h : CursorInv cmds sequence received_data t) :
    CursorInv cmds sequence received_data (event d e t) := by
  obtain ⟨c, hq, hl, hc⟩ := h
  have e1 := event_sequence d e t
  have e2 := event_length d e t
  have e3 := event_receive_buffer d e t
  by_cases hcons : advances d e t ∧ t.i2c_sequence_length ≠ 0
  · -- a command is consumed
    have hnr : t.i2c_state ≠ I2C_RECEIVED_DATA := by
      rcases hcons.1 with h | ⟨h, _⟩ <;> simp [h]
    have hclt : c < cmds.length := by omega
    have hw := holds_getD t.seqmem cmds sequence c hmem hclt
    rw [← hq] at hw
    have hst : (event d e t).i2c_state = I2C_RECEIVED_DATA ↔ cmds.getD c 0 = I2C_READ := by
      rw [← hw]
      constructor
      · intro h; exact (event_received_from d e t h).2.2.1
      · intro h
        rw [event_state]
        rcases hcons.1 with hs | ⟨hs, _⟩ <;>
          simp [hs, hcons.1, hcons.2, h, tag_ne]
    refine ⟨c + 1, ?_, ?_, ?_⟩
    · rw [e1]; simp only [hcons, ne_eq, not_false_eq_true, and_self, if_true]; omega
    · rw [e2]; simp only [hcons, ne_eq, not_false_eq_true, and_self, if_true]; omega
    · rw [e3, nRead_take_succ cmds c hclt]
      simp only [hnr, if_false] at hc ⊢
      by_cases hR : cmds.getD c 0 = I2C_READ
      · simp only [hst.mpr hR, hR, if_true]; omega
      · have : ¬ (event d e t).i2c_state = I2C_RECEIVED_DATA := fun h => hR (hst.mp h)
        simp only [this, hR, if_false]; omega
  · -- nothing is consumed
    have hnot : (event d e t).i2c_state ≠ I2C_RECEIVED_DATA := by
      intro h
      have := event_received_from d e t h
      exact hcons ⟨this.1, this.2.1⟩
    refine ⟨c, ?_, ?_, ?_⟩
    · rw [e1]; simp only [hcons, if_false]; exact hq
    · rw [e2]; simp only [hcons, if_false]; exact hl
    · rw [e3]
      simp only [hnot, if_false]
      by_cases hr : t.i2c_state = I2C_RECEIVED_DATA
      · simp only [hr, if_true] at hc ⊢; omega
      · simp only [hr, if_false] at hc ⊢; omega

theorem run_seqmem (d : Header) (evs : List BusInput) :
    ∀ s : State, (run d evs s).seqmem = s.seqmem := by
  induction evs with
  | nil => intro s; rfl
  | cons e es ih => intro s; simp only [run]; rw [ih, event_seqmem]

theorem CursorInv_run (d : Header) (cmds : List Nat) (sequence received_data : Nat)
    (evs : List BusInput) :
    ∀ t : State, holds t.seqmem sequence cmds → cmds.length < 65536 →
      CursorInv cmds sequence received_data t →
      CursorInv cmds sequence received_data (run d evs t) := by
  induction evs with
  | nil => intro t _ _ h; exact h
  | cons e es ih =>
    intro t hm hl h
    exact ih _ (by rw [event_seqmem]; exact hm) hl
      (CursorInv_event d cmds sequence received_data e t hm hl h)

theorem cursor_counts_stores (d : Header) (evs : List BusInput) :
    ∀ s : State, (run d evs s).i2c_receive_buffer
      = s.i2c_receive_buffer + (receivedBytes d evs s).length := by
  induction evs with
  | nil => intro s; simp [run, receivedBytes]
  | cons e es ih =>
    intro s
    simp only [run, receivedBytes]
    rw [ih, event_receive_buffer]
    split_ifs
    · simp only [List.length_cons]; omega
    · rfl

/-- C4: in a run started by `i2c_send_sequence` on the command words `cmds`,
under any bus inputs, the receive cursor starts at `received_data` and each
event either leaves it or advances it by one; it advances, and a byte is
stored (at the cursor, the shift-register byte of that event), exactly at the
events entered in state ReceivedData; the state is ReceivedData only right
after an event that consumed a Read command; and an event entered in
ReceivedData after `j` earlier stores writes `received_data + j`, with
`j + 1` at most the number of Read commands of `cmds`. -/
theorem receive_cursor_discipline (d : Header) (cmds : List Nat)
    (sequence received_data wakeup_sr_bits : Nat) (evs : List BusInput) (s s0 : State)
    (hidle : s.i2c_state = I2C_IDLE) (hmem : holds s.seqmem sequence cmds)
    (hlen : cmds.length < 65536)
    (hs0 : s0 = started d sequence cmds.length received_data wakeup_sr_bits s) :
    s0.i2c_receive_buffer = received_data ∧ s0.i2c_state ≠ I2C_RECEIVED_DATA ∧
    ∀ (k : Nat) (hk : k < evs.length),
      (run d (evs.take (k + 1)) s0).i2c_receive_buffer =
        (run d (evs.take k) s0).i2c_receive_buffer +
          (if (run d (evs.take k) s0).i2c_state = I2C_RECEIVED_DATA then 1 else 0) ∧
      (run d (evs.take (k + 1)) s0).rxmem =
        (if (run d (evs.take k) s0).i2c_state = I2C_RECEIVED_DATA then
          store (run d (evs.take k) s0).rxmem (run d (evs.take k) s0).i2c_receive_buffer
            ((evs.get ⟨k, hk⟩).USISRL % 256)
        else (run d (evs.take k) s0).rxmem) ∧
      ((run d (evs.take (k + 1)) s0).i2c_state = I2C_RECEIVED_DATA →
        (run d (evs.take k) s0).seqmem (run d (evs.take k) s0).i2c_sequence = I2C_READ ∧
        (run d (evs.take k) s0).i2c_sequence_length ≠ 0 ∧
        (run d (evs.take (k + 1)) s0).i2c_sequence
          = (run d (evs.take k) s0).i2c_sequence + 1) ∧
      ((run d (evs.take k) s0).i2c_state = I2C_RECEIVED_DATA →
        (run d (evs.take k) s0).i2c_receive_buffer
          = received_data + (receivedBytes d (evs.take k) s0).length ∧
        (receivedBytes d (evs.take k) s0).length + 1 ≤ nRead cmds) := by
  have hs := started_eq d sequence cmds.length received_data wakeup_sr_bits s hidle
  rw [← hs0] at hs
  have hb : s0.i2c_receive_buffer = received_data := by rw [hs]
  have hst : s0.i2c_state = I2C_START := by rw [hs]
  have hm0 : holds s0.seqmem sequence cmds := by rw [hs]; exact hmem
  have hinv0 : CursorInv cmds sequence received_data s0 := by
    refine ⟨0, ?_, ?_, ?_⟩
    · rw [hs]; rfl
    · rw [hs]; simp
    · rw [hst, hb]; simp [nRead]
  refine ⟨hb, by rw [hst]; simp, ?_⟩
  intro k hk
  have hstep := run_take_succ d evs s0 k hk
  refine ⟨?_, ?_, ?_, ?_⟩
  · rw [hstep, event_receive_buffer]
    split_ifs <;> rfl
  · rw [hstep, event_rxmem]
  · intro h
    rw [hstep] at h ⊢
    obtain ⟨_, h2, h3, h4⟩ := event_received_from d _ _ h
    exact ⟨h3, h2, h4⟩
  · intro h
    have hc := cursor_counts_stores d (evs.take k) s0
    rw [hb] at hc
    obtain ⟨c, _, _, hi⟩ := CursorInv_run d cmds sequence received_data (evs.take k) s0 hm0 hlen hinv0
    simp only [h, if_true] at hi
    have := nRead_take_le cmds c
    exact ⟨hc, by omega⟩

/-- Witness of `receive_cursor_discipline`: the commands [Read, Write(0x33), Read]
with the write refused; the only store puts 0x42 at the first slot, and the
second slot is never written although a second Read was queued. -/
theorem receive_cursor_discipline_witness :
    ((started msp430g2412 0 readWriteRead.length 200 0 (idleWith readWriteRead)).i2c_receive_buffer
      = 200 ∧
    (started msp430g2412 0 readWriteRead.length 200 0 (idleWith readWriteRead)).i2c_state
      ≠ I2C_RECEIVED_DATA) ∧
    (run msp430g2412 (readWriteRead_events.take 1)
      (started msp430g2412 0 3 200 0 (idleWith readWriteRead))).i2c_state = I2C_RECEIVED_DATA ∧
    (run msp430g2412 readWriteRead_events
      (started msp430g2412 0 3 200 0 (idleWith readWriteRead))).i2c_state = I2C_IDLE ∧
    (run msp430g2412 readWriteRead_events
      (started msp430g2412 0 3 200 0 (idleWith readWriteRead))).i2c_receive_buffer = 201 ∧
    (run msp430g2412 readWriteRead_events
      (started msp430g2412 0 3 200 0 (idleWith readWriteRead))).rxmem 200 = 0x42 ∧
    (run msp430g2412 readWriteRead_events
      (started msp430g2412 0 3 200 0 (idleWith readWriteRead))).rxmem 201 = 0x55 :=
  have h := receive_cursor_discipline msp430g2412 readWriteRead 0 200 0 readWriteRead_events
    (idleWith readWriteRead)
    (started msp430g2412 0 readWriteRead.length 200 0 (idleWith readWriteRead))
    rfl (by decide) (by decide) rfl
  ⟨⟨h.1, h.2.1⟩, by decide, by decide, by decide, by decide, by decide⟩

/-! ## The handler, state by state -/

theorem USI_TXRX_USICTL1 (d : Header) (s : State) :
    (USI_TXRX d s).USICTL1 = bic s.USICTL1 d.USIIFG := by
  rcases s with ⟨p, n, rb, wk, st, c0, c1, ck, cnt, srl, sr, sm, rm⟩
  cases st <;>
    simp [USI_TXRX, i2c_prepare_data_xmit_recv, i2c_prepare_stop, bic_SR_register_on_exit] <;>
    split_ifs <;> simp

/-- C18: in whatever protocol state and with whatever register contents the
handler is entered, when it returns USICTL1 is its old value with the bits of
USIIFG cleared: every bit of USIIFG is clear and every other bit is as it was.
Entered in Idle it changes nothing else: the result is the entry state with
only that flag cleared. -/
theorem handler_clears_flag (d : Header) (s : State) :
    (USI_TXRX d s).USICTL1 = bic s.USICTL1 d.USIIFG ∧
    (USI_TXRX d s).USICTL1 &&& d.USIIFG = 0 ∧
    (∀ i, d.USIIFG.testBit i = true → (USI_TXRX d s).USICTL1.testBit i = false) ∧
    (∀ i, d.USIIFG.testBit i = false →
      (USI_TXRX d s).USICTL1.testBit i = s.USICTL1.testBit i) ∧
    USI_TXRX d { s with i2c_state := I2C_IDLE } =
      { s with i2c_state := I2C_IDLE, USICTL1 := bic s.USICTL1 d.USIIFG } := by
  have h := USI_TXRX_USICTL1 d s
  refine ⟨h, ?_, ?_, ?_, ?_⟩
  · rw [h]
    apply Nat.eq_of_testBit_eq
    intro i
    rw [Nat.testBit_and, testBit_bic]
    cases s.USICTL1.testBit i <;> cases d.USIIFG.testBit i <;> simp
  · intro i hi
    rw [h, testBit_bic, hi]; simp
  · intro i hi
    rw [h, testBit_bic, hi]; simp
  · simp [USI_TXRX]

/-- C14: entered in state ReceivedData, the handler stores the shift-register
byte at the receive cursor, advances the cursor by one and sets USIOE; then,
looking only at the remaining length, it loads 0x00 (ACK) and goes to
HandleRxTx when the length is positive, and loads 0xFF (NACK) and goes to
PrepareStop when it is zero.  The command memory is not consulted, and the
command pointer and the remaining length are unchanged. -/
theorem received_data_step (d : Header) (s : State)
    (hs : s.i2c_state = I2C_RECEIVED_DATA) :
    (USI_TXRX d s).rxmem = store s.rxmem s.i2c_receive_buffer s.USISRL ∧
    (USI_TXRX d s).rxmem s.i2c_receive_buffer = s.USISRL ∧
    (USI_TXRX d s).i2c_receive_buffer = s.i2c_receive_buffer + 1 ∧
    (USI_TXRX d s).USICTL0 = s.USICTL0 ||| d.USIOE ∧
    (USI_TXRX d s).USICTL0 &&& d.USIOE = d.USIOE ∧
    (0 < s.i2c_sequence_length →
      (USI_TXRX d s).USISRL = 0x00 ∧ (USI_TXRX d s).i2c_state = I2C_HANDLE_RXTX) ∧
    (s.i2c_sequence_length = 0 →
      (USI_TXRX d s).USISRL = 0xFF ∧ (USI_TXRX d s).i2c_state = I2C_PREPARE_STOP) ∧
    (USI_TXRX d s).i2c_sequence = s.i2c_sequence ∧
    (USI_TXRX d s).i2c_sequence_length = s.i2c_sequence_length ∧
    (∀ mem : Nat → Nat,
      USI_TXRX d { s with seqmem := mem } = { USI_TXRX d s with seqmem := mem }) := by
  have hor : (s.USICTL0 ||| d.USIOE) &&& d.USIOE = d.USIOE := by
    apply Nat.eq_of_testBit_eq
    intro i
    rw [Nat.testBit_and, Nat.testBit_or]
    cases s.USICTL0.testBit i <;> cases d.USIOE.testBit i <;> rfl
  rcases s with ⟨p, n, rb, wk, st, c0, c1, ck, cnt, srl, sr, sm, rm⟩
  simp only at hs hor
  subst hs
  by_cases hn : 0 < n
  · refine ⟨?_, ?_, ?_, ?_, ?_, ?_, ?_, ?_, ?_, ?_⟩
    · simp [USI_TXRX, hn]
    · simp [USI_TXRX, hn, store]
    · simp [USI_TXRX, hn]
    · simp [USI_TXRX, hn]
    · simpa [USI_TXRX, hn] using hor
    · intro _
      simp [USI_TXRX, hn]
    · intro h
      simp only at h
      omega
    · simp [USI_TXRX, hn]
    · simp [USI_TXRX, hn]
    · intro mem
      simp [USI_TXRX, hn]
  · refine ⟨?_, ?_, ?_, ?_, ?_, ?_, ?_, ?_, ?_, ?_⟩
    · simp [USI_TXRX, hn]
    · simp [USI_TXRX, hn, store]
    · simp [USI_TXRX, hn]
    · simp [USI_TXRX, hn]
    · simpa [USI_TXRX, hn] using hor
    · intro h
      exact absurd h hn
    · intro _
      simp [USI_TXRX, hn]
    · simp [USI_TXRX, hn]
    · simp [USI_TXRX, hn]
    · intro mem
      simp [USI_TXRX, hn]

/-- Witness of `received_data_step`: the first Read of [Read, Write(0x33), Read]
has received 0x42; two commands remain and the next one is a Write, yet the
byte is acknowledged (0x00) and the next state is HandleRxTx. -/
theorem received_data_step_witness :
    receivedFirst.i2c_state = I2C_RECEIVED_DATA ∧
    receivedFirst.seqmem receivedFirst.i2c_sequence = 0x33 ∧
    (USI_TXRX msp430g2412 receivedFirst).rxmem 200 = 0x42 ∧
    (USI_TXRX msp430g2412 receivedFirst).i2c_receive_buffer = 201 ∧
    (USI_TXRX msp430g2412 receivedFirst).USISRL = 0x00 ∧
    (USI_TXRX msp430g2412 receivedFirst).i2c_state = I2C_HANDLE_RXTX :=
  have h := received_data_step msp430g2412 receivedFirst (by decide)
  ⟨by decide, by decide, h.2.1, h.2.2.1, (h.2.2.2.2.2.1 (by decide)).1,
    (h.2.2.2.2.2.1 (by decide)).2⟩

/-! ## The advance step -/

theorem testBit_or_mask (r m : Nat) : (r ||| m) &&& m = m := by
  apply Nat.eq_of_testBit_eq
  intro i
  rw [Nat.testBit_and, Nat.testBit_or]
  cases r.testBit i <;> cases m.testBit i <;> rfl

theorem bic_and_mask (r m : Nat) : bic r m &&& m = 0 := by
  apply Nat.eq_of_testBit_eq
  intro i
  rw [Nat.testBit_and, testBit_bic]
  cases r.testBit i <;> cases m.testBit i <;> simp

/-- C16: the advance step `i2c_prepare_data_xmit_recv` in its four cases.
With no command remaining it is `i2c_prepare_stop`: USIOE set, shift register
0x00, state Stop, nothing consumed.  With front word Restart: USIOE set, 0xFF
loaded, state Start.  With front word Read: USIOE cleared, state ReceivedData,
shift register unchanged.  With any other front word (a Write): USIOE set, the
low byte of the word loaded, state PrepareAckNack.  In the three non-empty
cases the command pointer advances by one and the remaining length decreases
by one, and in all cases both memories, the receive cursor and the wake mask
are unchanged. -/
theorem advance_step_cases (d : Header) (s : State)
    (hlen : s.i2c_sequence_length < 65536) :
    (s.i2c_sequence_length = 0 →
      i2c_prepare_data_xmit_recv d s = i2c_prepare_stop d s ∧
      (i2c_prepare_data_xmit_recv d s).USICTL0 = s.USICTL0 ||| d.USIOE ∧
      (i2c_prepare_data_xmit_recv d s).USISRL = 0x00 ∧
      (i2c_prepare_data_xmit_recv d s).i2c_state = I2C_STOP ∧
      (i2c_prepare_data_xmit_recv d s).i2c_sequence = s.i2c_sequence ∧
      (i2c_prepare_data_xmit_recv d s).i2c_sequence_length = 0) ∧
    (s.i2c_sequence_length ≠ 0 → s.seqmem s.i2c_sequence = I2C_RESTART →
      (i2c_prepare_data_xmit_recv d s).USICTL0 = s.USICTL0 ||| d.USIOE ∧
      (i2c_prepare_data_xmit_recv d s).USISRL = 0xFF ∧
      (i2c_prepare_data_xmit_recv d s).i2c_state = I2C_START) ∧
    (s.i2c_sequence_length ≠ 0 → s.seqmem s.i2c_sequence = I2C_READ →
      (i2c_prepare_data_xmit_recv d s).USICTL0 = bic s.USICTL0 d.USIOE ∧
      (i2c_prepare_data_xmit_recv d s).USICTL0 &&& d.USIOE = 0 ∧
      (i2c_prepare_data_xmit_recv d s).USISRL = s.USISRL ∧
      (i2c_prepare_data_xmit_recv d s).i2c_state = I2C_RECEIVED_DATA) ∧
    (s.i2c_sequence_length ≠ 0 → s.seqmem s.i2c_sequence ≠ I2C_RESTART →
        s.seqmem s.i2c_sequence ≠ I2C_READ →
      (i2c_prepare_data_xmit_recv d s).USICTL0 = s.USICTL0 ||| d.USIOE ∧
      (i2c_prepare_data_xmit_recv d s).USISRL = s.seqmem s.i2c_sequence % 256 ∧
      (i2c_prepare_data_xmit_recv d s).i2c_state = I2C_PREPARE_ACKNACK) ∧
    (s.i2c_sequence_length ≠ 0 →
      (i2c_prepare_data_xmit_recv d s).i2c_sequence = s.i2c_sequence + 1 ∧
      (i2c_prepare_data_xmit_recv d s).i2c_sequence_length + 1 = s.i2c_sequence_length) ∧
    (i2c_prepare_data_xmit_recv d s).seqmem = s.seqmem ∧
    (i2c_prepare_data_xmit_recv d s).rxmem = s.rxmem ∧
    (i2c_prepare_data_xmit_recv d s).i2c_receive_buffer = s.i2c_receive_buffer ∧
    (i2c_prepare_data_xmit_recv d s).i2c_wakeup_sr_bits = s.i2c_wakeup_sr_bits ∧
    (s.USICTL0 ||| d.USIOE) &&& d.USIOE = d.USIOE := by
  have hne := tag_ne
  refine ⟨?_, ?_, ?_, ?_, ?_, ?_, ?_, ?_, ?_, testBit_or_mask _ _⟩
  · intro h
    simp [i2c_prepare_data_xmit_recv, i2c_prepare_stop, h]
  · intro h hw
    simp [i2c_prepare_data_xmit_recv, h, hw]
  · intro h hw
    have hb := bic_and_mask s.USICTL0 d.USIOE
    simp [i2c_prepare_data_xmit_recv, h, hw, hne, hb]
  · intro h hw1 hw2
    simp [i2c_prepare_data_xmit_recv, h, hw1, hw2]
  · intro h
    have : (s.i2c_sequence_length + 65535) % 65536 + 1 = s.i2c_sequence_length := by omega
    simp only [i2c_prepare_data_xmit_recv, h, if_false]
    split_ifs <;> exact ⟨rfl, this⟩
  · simp only [i2c_prepare_data_xmit_recv, i2c_prepare_stop]
    split_ifs <;> rfl
  · simp only [i2c_prepare_data_xmit_recv, i2c_prepare_stop]
    split_ifs <;> rfl
  · simp only [i2c_prepare_data_xmit_recv, i2c_prepare_stop]
    split_ifs <;> rfl
  · simp only [i2c_prepare_data_xmit_recv, i2c_prepare_stop]
    split_ifs <;> rfl

/-- Witness of `advance_step_cases`: the driver in the middle of scenario A,
one command left, front word Write(0xFF). -/
theorem advance_step_cases_witness :
    busyState.i2c_sequence_length = 1 ∧ busyState.seqmem busyState.i2c_sequence = 0xFF ∧
    (i2c_prepare_data_xmit_recv msp430g2412 busyState).USISRL = 0xFF ∧
    (i2c_prepare_data_xmit_recv msp430g2412 busyState).i2c_state = I2C_PREPARE_ACKNACK ∧
    (i2c_prepare_data_xmit_recv msp430g2412 busyState).i2c_sequence
      = busyState.i2c_sequence + 1 ∧
    (i2c_prepare_data_xmit_recv msp430g2412 busyState).i2c_sequence_length + 1
      = busyState.i2c_sequence_length :=
  have h := advance_step_cases msp430g2412 busyState (by decide)
  ⟨by decide, by decide,
    (h.2.2.2.1 (by decide) (by decide) (by decide)).2.1.trans (by decide),
    (h.2.2.2.1 (by decide) (by decide) (by decide)).2.2,
    (h.2.2.2.2.1 (by decide)).1, (h.2.2.2.2.1 (by decide)).2⟩

/-- C12: no byte value is a control tag: every `b` below 256 differs from
`I2C_RESTART` = 0x0100 and from `I2C_READ` = 0x0200, and with front word `b`
the advance step takes the Write branch and loads exactly `b`.  For every
front word `w` the advance step goes to Start exactly when `w` = 0x0100, to
ReceivedData exactly when `w` = 0x0200, and otherwise to PrepareAckNack with
`w` mod 256 loaded, also when the upper byte of `w` is not zero. -/
theorem command_words_classified (d : Header) (s : State)
    (hlen : s.i2c_sequence_length ≠ 0) :
    I2C_RESTART = 0x0100 ∧ I2C_READ = 0x0200 ∧
    (∀ b, b < 256 → b ≠ I2C_RESTART ∧ b ≠ I2C_READ ∧
      (s.seqmem s.i2c_sequence = b →
        (i2c_prepare_data_xmit_recv d s).i2c_state = I2C_PREPARE_ACKNACK ∧
        (i2c_prepare_data_xmit_recv d s).USISRL = b)) ∧
    ((i2c_prepare_data_xmit_recv d s).i2c_state = I2C_START ↔
      s.seqmem s.i2c_sequence = 0x0100) ∧
    ((i2c_prepare_data_xmit_recv d s).i2c_state = I2C_RECEIVED_DATA ↔
      s.seqmem s.i2c_sequence = 0x0200) ∧
    ((i2c_prepare_data_xmit_recv d s).i2c_state = I2C_PREPARE_ACKNACK ↔
      (s.seqmem s.i2c_sequence ≠ 0x0100 ∧ s.seqmem s.i2c_sequence ≠ 0x0200)) ∧
    (s.seqmem s.i2c_sequence ≠ 0x0100 → s.seqmem s.i2c_sequence ≠ 0x0200 →
      (i2c_prepare_data_xmit_recv d s).USISRL = s.seqmem s.i2c_sequence % 256) := by
  have hR : I2C_RESTART = 256 := by decide
  have hD : I2C_READ = 512 := by decide
  have hstate : (i2c_prepare_data_xmit_recv d s).i2c_state =
      if s.seqmem s.i2c_sequence = 256 then I2C_START
      else if s.seqmem s.i2c_sequence = 512 then I2C_RECEIVED_DATA
      else I2C_PREPARE_ACKNACK := by
    simp only [i2c_prepare_data_xmit_recv, hlen, if_false, hR, hD]
    split_ifs <;> rfl
  have hsrl : s.seqmem s.i2c_sequence ≠ 256 → s.seqmem s.i2c_sequence ≠ 512 →
      (i2c_prepare_data_xmit_recv d s).USISRL = s.seqmem s.i2c_sequence % 256 := by
    intro h1 h2
    simp [i2c_prepare_data_xmit_recv, hlen, hR, hD, h1, h2]
  refine ⟨hR, hD, ?_, ?_, ?_, ?_, hsrl⟩
  · intro b hb
    refine ⟨by omega, by omega, ?_⟩
    intro hw
    have h1 : s.seqmem s.i2c_sequence ≠ 256 := by omega
    have h2 : s.seqmem s.i2c_sequence ≠ 512 := by omega
    refine ⟨by rw [hstate]; simp [h1, h2], ?_⟩
    rw [hsrl h1 h2, hw]
    exact Nat.mod_eq_of_lt hb
  · rw [hstate]
    split_ifs with h1 h2 <;> simp [h1]
  · rw [hstate]
    split_ifs with h1 h2
    · simp [h1]
    · simp [h2]
    · simp [h2]
  · rw [hstate]
    split_ifs with h1 h2
    · simp [h1]
    · simp [h2]
    · simp [h1, h2]

/-- Witness of `command_words_classified`: the front word 0x1234 has a
non-zero upper byte that is neither tag; it is sent as Write(0x34). -/
theorem command_words_classified_witness :
    oddWord.i2c_sequence_length ≠ 0 ∧ oddWord.seqmem oddWord.i2c_sequence = 0x1234 ∧
    (i2c_prepare_data_xmit_recv msp430g2412 oddWord).i2c_state = I2C_PREPARE_ACKNACK ∧
    (i2c_prepare_data_xmit_recv msp430g2412 oddWord).USISRL = 0x34 :=
  have h := command_words_classified msp430g2412 oddWord (by decide)
  ⟨by decide, by decide,
    h.2.2.2.2.2.1.mpr ⟨by decide, by decide⟩,
    (h.2.2.2.2.2.2 (by decide) (by decide)).trans (by decide)⟩

/-! ## The bit counter -/

theorem or_mod_32 (a b : Nat) : (a ||| b) % 32 = a % 32 ||| b % 32 := by
  apply Nat.eq_of_testBit_eq
  intro i
  have h32 : (32 : Nat) = 2 ^ 5 := by norm_num
  rw [h32, Nat.testBit_or, Nat.testBit_mod_two_pow, Nat.testBit_mod_two_pow,
    Nat.testBit_mod_two_pow, Nat.testBit_or]
  cases decide (i < 5) <;> simp

theorem and_mod_32 (a b : Nat) : (a &&& b) % 32 = a % 32 &&& b % 32 := by
  apply Nat.eq_of_testBit_eq
  intro i
  have h32 : (32 : Nat) = 2 ^ 5 := by norm_num
  rw [h32, Nat.testBit_and, Nat.testBit_mod_two_pow, Nat.testBit_mod_two_pow,
    Nat.testBit_mod_two_pow, Nat.testBit_and]
  cases decide (i < 5) <;> simp

theorem or_div_32 (a b : Nat) : (a ||| b) / 32 = a / 32 ||| b / 32 := by
  have h32 : (32 : Nat) = 2 ^ 5 := by norm_num
  rw [h32, ← Nat.shiftRight_eq_div_pow, ← Nat.shiftRight_eq_div_pow,
    ← Nat.shiftRight_eq_div_pow]
  apply Nat.eq_of_testBit_eq
  intro i
  simp [Nat.testBit_shiftRight, Nat.testBit_or]

theorem and_div_32 (a b : Nat) : (a &&& b) / 32 = a / 32 &&& b / 32 := by
  have h32 : (32 : Nat) = 2 ^ 5 := by norm_num
  rw [h32, ← Nat.shiftRight_eq_div_pow, ← Nat.shiftRight_eq_div_pow,
    ← Nat.shiftRight_eq_div_pow]
  apply Nat.eq_of_testBit_eq
  intro i
  simp [Nat.testBit_shiftRight, Nat.testBit_and]

/-- `USICNT |= 0x01` leaves the count 1 when the counter field was 0 or 1. -/
theorem or_one_count (x : Nat) (h : x % 32 ≤ 1) : (x ||| 1) % 32 = 1 := by
  rw [or_mod_32]
  rcases Nat.le_one_iff_eq_zero_or_eq_one.mp h with h0 | h1
  · rw [h0]; rfl
  · rw [h1]; rfl

/-- `USICNT |= 0x01` leaves the count field 1 only if it was 0 or 1. -/
theorem or_one_count_iff (x : Nat) : (x ||| 1) % 32 = 1 ↔ x % 32 ≤ 1 := by
  constructor
  · intro h
    rw [or_mod_32] at h
    have hlt : x % 32 < 32 := Nat.mod_lt _ (by norm_num)
    generalize x % 32 = r at h hlt
    interval_cases r <;> first | omega | (revert h; decide)
  · exact or_one_count x

theorem or_one_upper (x : Nat) : (x ||| 1) / 32 = x / 32 := by
  rw [or_div_32]; simp

/-- `USICNT = (USICNT & 0xE0) | n` sets the count field to `n`. -/
theorem field_count (x n : Nat) (hn : n < 32) : ((x &&& 0xE0) ||| n) % 32 = n := by
  rw [or_mod_32, and_mod_32]
  simp [Nat.mod_eq_of_lt hn]

theorem field_upper (x n : Nat) (hn : n < 32) (hx : x < 256) :
    ((x &&& 0xE0) ||| n) / 32 = x / 32 := by
  rw [or_div_32, and_div_32, Nat.div_eq_of_lt hn]
  have h7 : (0xE0 : Nat) / 32 = 2 ^ 3 - 1 := by norm_num
  rw [h7, Nat.or_zero]
  exact Nat.and_pow_two_sub_one_of_lt_two_pow (by omega)

theorem USI_TXRX_USICNT_or (d : Header) (s : State) (h : setsCountByOr d s) :
    (USI_TXRX d s).USICNT = s.USICNT ||| 1 := by
  rcases s with ⟨p, n, rb, wk, st, c0, c1, ck, cnt, srl, sr, sm, rm⟩
  unfold setsCountByOr at h
  simp only at h
  rcases h with h | h | h | ⟨h, hn⟩ | ⟨h | h, hl⟩
  · subst h; simp [USI_TXRX]
  · subst h
    simp only [USI_TXRX]
    split_ifs <;> rfl
  · subst h; simp [USI_TXRX, i2c_prepare_stop]
  · subst h; simp [USI_TXRX, i2c_prepare_stop, hn]
  · subst h; subst hl; simp [USI_TXRX, i2c_prepare_data_xmit_recv, i2c_prepare_stop]
  · subst h; subst hl
    simp only [USI_TXRX, i2c_prepare_data_xmit_recv, i2c_prepare_stop]
    split_ifs <;> rfl

theorem USI_TXRX_USICNT_field (d : Header) (s : State) (h : setsCountByField d s) :
    (USI_TXRX d s).USICNT =
      (s.USICNT &&& 0xE0) |||
        (if s.seqmem s.i2c_sequence = I2C_RESTART then 1 else 8) := by
  rcases s with ⟨p, n, rb, wk, st, c0, c1, ck, cnt, srl, sr, sm, rm⟩
  unfold setsCountByField at h
  simp only at h
  obtain ⟨h | ⟨h, hn⟩, hl⟩ := h
  · subst h
    simp only [USI_TXRX, i2c_prepare_data_xmit_recv, hl, if_false]
    split_ifs <;> rfl
  · subst h
    simp only [USI_TXRX, i2c_prepare_data_xmit_recv, hl, if_false, hn, ne_eq,
      not_true_eq_false]
    split_ifs <;> rfl

/-- The bit count after the handler, branch by branch.  The branches that use
`USICNT |= 0x01` (PrepareAckNack, ReceivedData, and STOP framing in
PrepareStop, on a NACK in HandleRxTx or by the advance step with no command
left) leave the 5-bit counter field at 1 exactly when it was 0 or 1 on entry,
in particular when the counter has expired (field 0); the advance step on a
Restart leaves it at 1, and on a Read or a Write at 8, for every entry value.
In all of them the upper three bits of USICNT are unchanged. -/
theorem bit_count_after_handler (d : Header) (s : State) (hreg : s.USICNT < 256) :
    (setsCountByOr d s →
      (USI_TXRX d s).USICNT = s.USICNT ||| 1 ∧
      ((USI_TXRX d s).USICNT % 32 = 1 ↔ s.USICNT % 32 ≤ 1) ∧
      (s.USICNT % 32 = 0 → (USI_TXRX d s).USICNT % 32 = 1) ∧
      (USI_TXRX d s).USICNT / 32 = s.USICNT / 32) ∧
    (setsCountByField d s → s.seqmem s.i2c_sequence = I2C_RESTART →
      (USI_TXRX d s).USICNT % 32 = 1 ∧ (USI_TXRX d s).USICNT / 32 = s.USICNT / 32) ∧
    (setsCountByField d s → s.seqmem s.i2c_sequence ≠ I2C_RESTART →
      (USI_TXRX d s).USICNT % 32 = 8 ∧ (USI_TXRX d s).USICNT / 32 = s.USICNT / 32) := by
  refine ⟨?_, ?_, ?_⟩
  · intro h
    have hc := USI_TXRX_USICNT_or d s h
    rw [hc]
    exact ⟨rfl, or_one_count_iff _, fun h0 => or_one_count _ (by omega), or_one_upper _⟩
  · intro h hw
    have hc := USI_TXRX_USICNT_field d s h
    rw [hc]
    simp only [hw, if_true]
    exact ⟨field_count _ 1 (by norm_num), field_upper _ 1 (by norm_num) hreg⟩
  · intro h hw
    have hc := USI_TXRX_USICNT_field d s h
    rw [hc]
    simp only [hw, if_false]
    exact ⟨field_count _ 8 (by norm_num), field_upper _ 8 (by norm_num) hreg⟩

/-- Witness of `bit_count_after_handler`: the driver in the middle of scenario
A, entered in PrepareAckNack with the counter expired. -/
theorem bit_count_after_handler_witness :
    busyEntered.USICNT < 256 ∧ setsCountByOr msp430g2412 busyEntered ∧
    busyEntered.USICNT % 32 = 0 ∧
    (USI_TXRX msp430g2412 busyEntered).USICNT % 32 = 1 ∧
    (USI_TXRX msp430g2412 busyEntered).USICNT / 32 = busyEntered.USICNT / 32 :=
  have h := (bit_count_after_handler msp430g2412 busyEntered (by decide)).1
    (Or.inl (by decide))
  ⟨by decide, Or.inl (by decide), by decide, h.2.2.1 (by decide), h.2.2.2⟩

/-- C13: `i2c_done` returns a non-zero value exactly when the protocol state is
Idle; the value is 1 or 0 and depends on the protocol state alone, so calls in
the same state return the same value.  The function only reads `i2c_state`. -/
theorem done_iff_idle (s : State) :
    (i2c_done s ≠ 0 ↔ s.i2c_state = I2C_IDLE) ∧
    (i2c_done s = 1 ∨ i2c_done s = 0) ∧
    (∀ t : State, t.i2c_state = s.i2c_state → i2c_done t = i2c_done s) := by
  refine ⟨?_, ?_, ?_⟩
  · unfold i2c_done
    split_ifs with h <;> simp [h]
  · unfold i2c_done
    split_ifs <;> simp
  · intro t ht
    unfold i2c_done
    rw [ht]

/-! ## Initialisation -/

/-- C11 (amended): for every clock divider and clock source, `i2c_init` returns
with the protocol state it was called in (it never assigns `i2c_state`), so
with Idle when called in Idle, the state of static initialisation; USIIFG is
clear in USICTL1, USISWRST is clear in USICTL0, and GIE is set in the status
register; and with the USI control bits at their data-sheet positions the
master bit USIMST is set in USICTL0 and the I2C mode bit USII2C and the
interrupt enable USIIE are set in USICTL1. -/
theorem init_postcondition (d : Header) (usi_clock_divider usi_clock_source : Nat)
    (s : State) (hd : usiLayout d) (hidle : s.i2c_state = I2C_IDLE) :
    (i2c_init d usi_clock_divider usi_clock_source s).i2c_state = I2C_IDLE ∧
    (∀ t : State, (i2c_init d usi_clock_divider usi_clock_source t).i2c_state = t.i2c_state) ∧
    (i2c_init d usi_clock_divider usi_clock_source s).USICTL1 &&& d.USIIFG = 0 ∧
    (i2c_init d usi_clock_divider usi_clock_source s).USICTL0 &&& d.USISWRST = 0 ∧
    (i2c_init d usi_clock_divider usi_clock_source s).SR &&& d.GIE = d.GIE ∧
    (i2c_init d usi_clock_divider usi_clock_source s).USICTL0 &&& d.USIMST = d.USIMST ∧
    (i2c_init d usi_clock_divider usi_clock_source s).USICTL1 &&& d.USII2C = d.USII2C ∧
    (i2c_init d usi_clock_divider usi_clock_source s).USICTL1 &&& d.USIIE = d.USIIE ∧
    (i2c_init d usi_clock_divider usi_clock_source s).USICTL0 = 0xC8 ∧
    (i2c_init d usi_clock_divider usi_clock_source s).USICTL1 = 0x50 := by
  obtain ⟨h7, h6, hM, hR, hI, hE, hF⟩ := hd
  have hst : ∀ t : State,
      (i2c_init d usi_clock_divider usi_clock_source t).i2c_state = t.i2c_state := by
    intro t; rfl
  have h0 : (i2c_init d usi_clock_divider usi_clock_source s).USICTL0
      = bic ((d.USIPE6 + d.USIPE7 + d.USIMST + d.USISWRST) % 256) d.USISWRST := rfl
  have h1 : (i2c_init d usi_clock_divider usi_clock_source s).USICTL1
      = bic ((d.USII2C + d.USIIE) % 256) d.USIIFG := rfl
  have hS : (i2c_init d usi_clock_divider usi_clock_source s).SR
      = bic s.SR d.GIE ||| d.GIE := rfl
  have v0 : (i2c_init d usi_clock_divider usi_clock_source s).USICTL0 = 0xC8 := by
    rw [h0, h7, h6, hM, hR]; decide
  have v1 : (i2c_init d usi_clock_divider usi_clock_source s).USICTL1 = 0x50 := by
    rw [h1, hI, hE, hF]; decide
  refine ⟨by rw [hst, hidle], hst, ?_, ?_, ?_, ?_, ?_, ?_, v0, v1⟩
  · rw [h1]; exact bic_and_mask _ _
  · rw [h0]; exact bic_and_mask _ _
  · rw [hS]; exact testBit_or_mask _ _
  · rw [v0, hM]; decide
  · rw [v1, hI]; decide
  · rw [v1, hE]; decide

/-- Witness of `init_postcondition`: the idle driver, initialised with the
divider 0xA0 and the source 0x08 of the header's example. -/
theorem init_postcondition_witness :
    usiLayout msp430g2412 ∧ (idleWith []).i2c_state = I2C_IDLE ∧
    (i2c_init msp430g2412 0xA0 0x08 (idleWith [])).i2c_state = I2C_IDLE ∧
    (i2c_init msp430g2412 0xA0 0x08 (idleWith [])).USICTL0 = 0xC8 ∧
    (i2c_init msp430g2412 0xA0 0x08 (idleWith [])).USICTL1 = 0x50 ∧
    (i2c_init msp430g2412 0xA0 0x08 (idleWith [])).SR &&& msp430g2412.GIE
      = msp430g2412.GIE :=
  have hd : usiLayout msp430g2412 := ⟨rfl, rfl, rfl, rfl, rfl, rfl, rfl⟩
  have h := init_postcondition msp430g2412 0xA0 0x08 (idleWith []) hd rfl
  ⟨hd, rfl, h.1, h.2.2.2.2.2.2.2.2.1, h.2.2.2.2.2.2.2.2.2, h.2.2.2.2.1⟩

/-- Counterexample to C11 as stated: called in the middle of scenario A, in
state PrepareAckNack, `i2c_init` returns with the state still PrepareAckNack,
not Idle. -/
theorem init_keeps_state_counterexample :
    busyState.i2c_state = I2C_PREPARE_ACKNACK ∧
    (i2c_init msp430g2412 0xA0 0x08 busyState).i2c_state = I2C_PREPARE_ACKNACK := by
  decide

/-! ## The cost of a Restart -/

/-- C20: in a run started by `i2c_send_sequence` on the command words `cmds`
with no NACK seen at any HandleRxTx event, the state is Idle for the first
time after exactly 2 + 2 * (Writes + Reads) + (Restarts) events.  A Restart
costs one event: the advancing event that finds it at the front leaves the
state at Start with the command consumed, and every event entered in Start
with a command left consumes that command. -/
theorem restart_costs_one_event (d : Header) (cmds : List Nat)
    (sequence received_data wakeup_sr_bits : Nat) (evs : List BusInput) (s : State)
    (hidle : s.i2c_state = I2C_IDLE) (hmem : holds s.seqmem sequence cmds)
    (hlen : cmds.length < 65536)
    (hnn : NoNack d evs (started d sequence cmds.length received_data wakeup_sr_bits s))
    (hev : 2 + 2 * (nWrite cmds + nRead cmds) + nRestart cmds ≤ evs.length) :
    firstIdle d evs (started d sequence cmds.length received_data wakeup_sr_bits s)
      = some (2 + 2 * (nWrite cmds + nRead cmds) + nRestart cmds) ∧
    (run d (evs.take (2 + 2 * (nWrite cmds + nRead cmds) + nRestart cmds))
        (started d sequence cmds.length received_data wakeup_sr_bits s)).i2c_state = I2C_IDLE ∧
    (∀ j, j < 2 + 2 * (nWrite cmds + nRead cmds) + nRestart cmds →
      (run d (evs.take j)
        (started d sequence cmds.length received_data wakeup_sr_bits s)).i2c_state
          ≠ I2C_IDLE) ∧
    (∀ (t : State) (e : BusInput), advances d e t → t.i2c_sequence_length ≠ 0 →
      t.seqmem t.i2c_sequence = I2C_RESTART →
      (event d e t).i2c_state = I2C_START ∧ (event d e t).i2c_sequence = t.i2c_sequence + 1) ∧
    (∀ (t : State) (e : BusInput), t.i2c_state = I2C_START → t.i2c_sequence_length ≠ 0 →
      (event d e t).i2c_sequence = t.i2c_sequence + 1) := by
  have hN : eventsNoNack cmds = 2 + 2 * (nWrite cmds + nRead cmds) + nRestart cmds := by
    unfold eventsNoNack; omega
  have hs := started_eq d sequence cmds.length received_data wakeup_sr_bits s hidle
  have h := firstIdle_ready d cmds evs
    (started d sequence cmds.length received_data wakeup_sr_bits s)
    (by rw [hs]; exact Or.inl rfl) (by rw [hs]; exact hmem) (by rw [hs]) hlen hnn
    (by rw [hN]; exact hev)
  rw [hN] at h
  obtain ⟨_, h2, h3⟩ := firstIdle_spec d evs _ _ h
  refine ⟨h, h2, h3, ?_, ?_⟩
  · intro t e ha hl hw
    constructor
    · rw [event_state]
      rcases ha with hst | ⟨hst, hb⟩
      · have ha' : advances d e t := Or.inl hst
        simp [hst, ha', hl, hw]
      · have ha' : advances d e t := Or.inr ⟨hst, hb⟩
        simp [hst, ha', hl, hw]
    · rw [event_sequence]; simp [ha, hl]
  · intro t e hst hl
    have ha : advances d e t := Or.inl hst
    rw [event_sequence]; simp [ha, hl]

/-- Witness of `restart_costs_one_event`: scenario B, two Writes, one Read and
one Restart, nine events. -/
theorem restart_costs_one_event_witness :
    2 + 2 * (nWrite scenarioB + nRead scenarioB) + nRestart scenarioB = 9 ∧
    firstIdle msp430g2412 scenarioB_events
      (started msp430g2412 0 scenarioB.length 200 0 (idleWith scenarioB))
      = some (2 + 2 * (nWrite scenarioB + nRead scenarioB) + nRestart scenarioB) :=
  ⟨by decide,
    (restart_costs_one_event msp430g2412 scenarioB 0 200 0 scenarioB_events (idleWith scenarioB)
      rfl (by decide) (by decide) (by decide) (by decide)).1⟩

/-! ## The command view -/

/-- An event depends on the command memory at the address `wordRead` only. -/
theorem event_reads_only (d : Header) (e : BusInput) (s : State) (mem : Nat → Nat)
    (h : ∀ a, wordRead d e s = some a → mem a = s.seqmem a) :
    event d e { s with seqmem := mem } = { event d e s with seqmem := mem } := by
  rcases s with ⟨p, n, rb, wk, st, c0, c1, ck, cnt, srl, sr, sm, rm⟩
  unfold wordRead advances at h
  simp only at h
  cases st
  · simp [event, completion, USI_TXRX]
  · by_cases hn : n = 0
    · simp [event, completion, USI_TXRX, i2c_prepare_data_xmit_recv, i2c_prepare_stop, hn]
    · have hw : mem p = sm p := h p (by simp [hn])
      simp only [event, completion, USI_TXRX, i2c_prepare_data_xmit_recv, hn, if_false, hw]
      split_ifs <;> rfl
  · simp [event, completion, USI_TXRX]
  · by_cases hb : (e.USISRL % 256) &&& d.BIT0 = 0
    · by_cases hn : n = 0
      · simp [event, completion, USI_TXRX, i2c_prepare_data_xmit_recv, i2c_prepare_stop, hn, hb]
      · have hw : mem p = sm p := h p (by simp [hn, hb])
        simp only [event, completion, USI_TXRX, i2c_prepare_data_xmit_recv, hn, if_false, hw,
          hb, ne_eq, not_true_eq_false]
        split_ifs <;> rfl
    · simp [event, completion, USI_TXRX, i2c_prepare_stop, hb]
  · simp only [event, completion, USI_TXRX]
    split_ifs <;> rfl
  · simp [event, completion, USI_TXRX, i2c_prepare_stop]
  · simp only [event, completion, USI_TXRX, bic_SR_register_on_exit]
    split_ifs <;> rfl

theorem event_view (d : Header) (e : BusInput) (t : State)
    (hl : t.i2c_sequence_length < 65536) :
    (event d e t).i2c_sequence + (event d e t).i2c_sequence_length
      = t.i2c_sequence + t.i2c_sequence_length ∧
    t.i2c_sequence ≤ (event d e t).i2c_sequence ∧
    ((event d e t).i2c_sequence_length = t.i2c_sequence_length ∨
      (event d e t).i2c_sequence_length + 1 = t.i2c_sequence_length) := by
  rw [event_sequence, event_length]
  by_cases h : advances d e t ∧ t.i2c_sequence_length ≠ 0
  · rw [if_pos h, if_pos h]
    have := h.2
    omega
  · rw [if_neg h, if_neg h]
    omega

theorem run_view (d : Header) (evs : List BusInput) :
    ∀ t : State, t.i2c_sequence_length < 65536 →
      (run d evs t).i2c_sequence + (run d evs t).i2c_sequence_length
        = t.i2c_sequence + t.i2c_sequence_length ∧
      t.i2c_sequence ≤ (run d evs t).i2c_sequence := by
  induction evs with
  | nil => intro t _; exact ⟨rfl, le_refl _⟩
  | cons e es ih =>
    intro t hl
    obtain ⟨h1, h2, h3⟩ := event_view d e t hl
    obtain ⟨i1, i2⟩ := ih (event d e t) (by omega)
    simp only [run]
    exact ⟨by omega, by omega⟩

/-- C17: in a run started by `i2c_send_sequence` with requested length `n`,
under any bus inputs and any content of the command memory, after every event
the number of commands consumed (the distance of the command pointer from
`sequence`) plus the remaining length is `n`; an event leaves the remaining
length as it is or decreases it by exactly one; an event reads at most one
command word, the one at index (commands consumed so far), only when the
remaining length is not zero, so at an index below `n`, and then advances the
pointer past it; the event's effect depends on no other word of the command
memory; and of two events that read, the later one reads a higher address, so
no word is read twice. -/
theorem command_view_shrinks (d : Header) (sequence n received_data wakeup_sr_bits : Nat)
    (evs : List BusInput) (s s0 : State) (hidle : s.i2c_state = I2C_IDLE)
    (hn : n < 65536) (hs0 : s0 = started d sequence n received_data wakeup_sr_bits s) :
    ∀ (k : Nat) (hk : k < evs.length),
      ((run d (evs.take (k + 1)) s0).i2c_sequence - sequence)
          + (run d (evs.take (k + 1)) s0).i2c_sequence_length = n ∧
      sequence ≤ (run d (evs.take (k + 1)) s0).i2c_sequence ∧
      ((run d (evs.take (k + 1)) s0).i2c_sequence_length
          = (run d (evs.take k) s0).i2c_sequence_length ∨
        (run d (evs.take (k + 1)) s0).i2c_sequence_length + 1
          = (run d (evs.take k) s0).i2c_sequence_length) ∧
      (∀ a, wordRead d (evs.get ⟨k, hk⟩) (run d (evs.take k) s0) = some a →
        a = sequence + ((run d (evs.take k) s0).i2c_sequence - sequence) ∧
        (run d (evs.take k) s0).i2c_sequence_length ≠ 0 ∧
        a < sequence + n ∧
        (run d (evs.take (k + 1)) s0).i2c_sequence = a + 1) ∧
      (∀ mem : Nat → Nat,
        (∀ a, wordRead d (evs.get ⟨k, hk⟩) (run d (evs.take k) s0) = some a →
          mem a = (run d (evs.take k) s0).seqmem a) →
        event d (evs.get ⟨k, hk⟩) { run d (evs.take k) s0 with seqmem := mem } =
          { run d (evs.take (k + 1)) s0 with seqmem := mem }) ∧
      (∀ (j : Nat) (hj : j < k) (a b : Nat),
        wordRead d (evs.get ⟨j, Nat.lt_trans hj hk⟩) (run d (evs.take j) s0) = some a →
        wordRead d (evs.get ⟨k, hk⟩) (run d (evs.take k) s0) = some b →
        a < b) := by
  have hs := started_eq d sequence n received_data wakeup_sr_bits s hidle
  rw [← hs0] at hs
  have hp0 : s0.i2c_sequence = sequence := by rw [hs]
  have hl0 : s0.i2c_sequence_length = n := by rw [hs]
  have hview : ∀ m, (run d (evs.take m) s0).i2c_sequence
        + (run d (evs.take m) s0).i2c_sequence_length = sequence + n ∧
      sequence ≤ (run d (evs.take m) s0).i2c_sequence := by
    intro m
    have := run_view d (evs.take m) s0 (by omega)
    rw [hp0, hl0] at this
    exact this
  have hread : ∀ (m : Nat) (hm : m < evs.length) (a : Nat),
      wordRead d (evs.get ⟨m, hm⟩) (run d (evs.take m) s0) = some a →
      a = (run d (evs.take m) s0).i2c_sequence ∧
      (run d (evs.take m) s0).i2c_sequence_length ≠ 0 ∧
      (run d (evs.take (m + 1)) s0).i2c_sequence = a + 1 := by
    intro m hm a ha
    unfold wordRead at ha
    split_ifs at ha with hc
    have hpa : (run d (evs.take m) s0).i2c_sequence = a := by simpa using ha
    refine ⟨hpa.symm, hc.2, ?_⟩
    rw [run_take_succ d evs s0 m hm, event_sequence, if_pos hc]
    omega
  intro k hk
  obtain ⟨v1, v2⟩ := hview k
  obtain ⟨w1, w2⟩ := hview (k + 1)
  have hstep := run_take_succ d evs s0 k hk
  obtain ⟨_, _, e3⟩ := event_view d (evs.get ⟨k, hk⟩) (run d (evs.take k) s0) (by omega)
  rw [← hstep] at e3
  refine ⟨by omega, w2, e3, ?_, ?_, ?_⟩
  · intro a ha
    obtain ⟨r1, r2, r3⟩ := hread k hk a ha
    exact ⟨by omega, r2, by omega, r3⟩
  · intro mem hmem
    rw [hstep]
    exact event_reads_only d _ _ mem hmem
  · intro j hj a b ha hb
    obtain ⟨_, _, r3⟩ := hread j (Nat.lt_trans hj hk) a ha
    obtain ⟨q1, _, _⟩ := hread k hk b hb
    have hsplit : evs.take k = evs.take (j + 1) ++ (evs.drop (j + 1)).take (k - (j + 1)) := by
      have : k = (j + 1) + (k - (j + 1)) := by omega
      conv_lhs => rw [this]
      rw [List.take_add]
    have hmono := (run_view d ((evs.drop (j + 1)).take (k - (j + 1)))
      (run d (evs.take (j + 1)) s0) (by have := hview (j + 1); omega)).2
    rw [← run_append, ← hsplit] at hmono
    omega

/-- Witness of `command_view_shrinks`: scenario B; its fourth event (entered
in Start after the Restart) reads the word at index 2 and leaves one command. -/
theorem command_view_shrinks_witness :
    wordRead msp430g2412 (shifted 0)
      (run msp430g2412 (scenarioB_events.take 3)
        (started msp430g2412 0 4 200 0 (idleWith scenarioB))) = some 2 ∧
    ((run msp430g2412 (scenarioB_events.take (3 + 1))
        (started msp430g2412 0 4 200 0 (idleWith scenarioB))).i2c_sequence - 0)
      + (run msp430g2412 (scenarioB_events.take (3 + 1))
        (started msp430g2412 0 4 200 0 (idleWith scenarioB))).i2c_sequence_length = 4 ∧
    (run msp430g2412 (scenarioB_events.take (3 + 1))
        (started msp430g2412 0 4 200 0 (idleWith scenarioB))).i2c_sequence_length = 1 :=
  ⟨by decide,
    (command_view_shrinks msp430g2412 0 4 200 0 scenarioB_events (idleWith scenarioB)
      (started msp430g2412 0 4 200 0 (idleWith scenarioB)) rfl (by decide) rfl 3
      (by decide)).1,
    by decide⟩
end UsiI2c
